import Mathlib

/-!
Verification development for the CatVSDogCHESS repository.

The repository contains two parallel rules engines and two bot searches:

* `chess-rules.ts` (file recovered without its name, `src/unnamed/part_001`,
  first segment): the game-facing rules engine working on
  `(ChessPiece | null)[][]` boards with `PieceColor.WHITE / BLACK`, a module
  level mutable en-passant target, castling by clicking the own rook,
  promotion flagging, draw detection, and `boardToString`.
  Embedded below in namespace `ChessRules`.
* `src/lib/chess-logic.ts`: the simplified engine used by the minimax bot,
  working on `(Piece | null)[][]` boards with players `dogs / cats`.
  Embedded below in namespace `ChessLogic`.
* `src/lib/chess-bot.ts`: a one-ply evaluator bot over the `ChessRules`
  engine with difficulty based randomness.  Embedded in namespace `ChessBot`.
* `src/lib/chess-ai.ts`: a minimax/alpha-beta search over the `ChessLogic`
  engine with a wall-clock timeout.  Embedded in namespace `ChessAI`.

Modelling conventions:

* JS board arrays become total functions `Fin 8 → Fin 8 → Option π`.
  Reads through `BoardOf.get?` take integer coordinates and return `none`
  out of range; writes through `BoardOf.set` out of range are dropped.
  This matches the observable behaviour of the source: every out-of-range
  write in the source (only the castling path-check can produce one, at
  column -1 or 8) lands at an array slot that no later read visits, since
  every scan in the source iterates rows and columns 0..7 only.
* The module level mutable `enPassantTarget` of chess-rules.ts is threaded
  explicitly: functions that read it take it as an argument, and `makeMove`
  returns the updated value alongside its `MoveResult`.
* JS numbers are modelled as `Int` where all arithmetic is integral and as
  `Rat` in chess-bot.ts, whose scores involve halves and twentieths; all
  values appearing there are exactly representable in binary floating point,
  so `Rat` computes the same numbers the source does.
* `Math.random()` is modelled as an explicit stream `Nat → Rat` of draws,
  and the `Date.now()` based timeout of chess-ais checkTimeout as an oracle
  `Nat → Bool` indexed by the number of clock queries so far.
* `chess-types.ts` and `chess-utils.ts` are not part of the recovered
  sources; the definitions taken from them (`PieceColor`, pieces,
  `EnPassantTarget`, `cloneBoard`, `findKingPosition`, the piece-type
  strings) are modelled from the spec and marked as such in doc comments.
-/

namespace CatVsDog

/-- Piece kinds, shared by both engines.  chess-logic.ts uses the string
union "pawn" | "rook" | "knight" | "bishop" | "queen" | "king"; the
`PieceType` enum of the missing chess-types.ts carries the same six names
(part_000 and part_004 convert between the two by `toLowerCase()`). -/
inductive PieceType where
  | pawn
  | rook
  | knight
  | bishop
  | queen
  | king
deriving DecidableEq, Repr

/-- Integer board coordinates, `{ row, col }` in the source. -/
structure Pos where
  row : Int
  col : Int
deriving DecidableEq, Repr

/-- Generic 8x8 board of optional cells, the model of a JS
`(π | null)[][]` with 8 rows of 8 columns. -/
def BoardOf (π : Type) : Type := Fin 8 → Fin 8 → Option π

instance (π : Type) [DecidableEq π] : DecidableEq (BoardOf π) :=
  inferInstanceAs (DecidableEq (Fin 8 → Fin 8 → Option π))

/-- Read `board[r][c]`; `none` out of range (in the source every read that
can go out of range yields undefined, which all call sites treat as null). -/
def BoardOf.get? {π : Type} (b : BoardOf π) (r c : Int) : Option π :=
  if h : 0 ≤ r ∧ r < 8 ∧ 0 ≤ c ∧ c < 8 then
    b ⟨r.toNat, by omega⟩ ⟨c.toNat, by omega⟩
  else none

/-- Write `board[r][c] = v`; out-of-range writes are dropped, which matches
the source because no scan ever reads outside columns/rows 0..7. -/
def BoardOf.set {π : Type} (b : BoardOf π) (r c : Int) (v : Option π) : BoardOf π :=
  fun i j => if ((i : ℕ) : ℤ) = r ∧ ((j : ℕ) : ℤ) = c then v else b i j

/-- Board with every square empty. -/
def BoardOf.empty (π : Type) : BoardOf π := fun _ _ => none

/-- The 64 squares in row-major order, the iteration order of every
`for (row...) for (col...)` scan in the source. -/
def allSquares : List Pos :=
  ((List.range 8).map (fun r =>
    (List.range 8).map (fun c => ({ row := r, col := c } : Pos)))).flatten

/-- List `[start, start+1, ..., start+n-1]` of integers, used to model the
`for` loops that walk a ray of squares between two coordinates. -/
def intRange (start : Int) (n : Nat) : List Int :=
  (List.range n).map (fun k : Nat => start + (k : Int))

theorem BoardOf.get?_eq_some_bounds {π : Type} {b : BoardOf π} {r c : Int} {p : π}
    (h : b.get? r c = some p) : 0 ≤ r ∧ r < 8 ∧ 0 ≤ c ∧ c < 8 := by
  by_contra hc
  simp only [BoardOf.get?, dif_neg hc] at h
  exact Option.noConfusion h

end CatVsDog

namespace CatVsDog.ChessRules

/-- Piece colours of the missing chess-types.ts.  Modelled from the spec:
side A "dogs" is WHITE, side B "cats" is BLACK. -/
inductive PieceColor where
  | white
  | black
deriving DecidableEq, Repr

/-- ChessPiece of the missing chess-types.ts.  Modelled from the spec:
type, side and a hasMoved flag. -/
structure Piece where
  type : PieceType
  color : PieceColor
  hasMoved : Bool
deriving DecidableEq, Repr

/-- Boards of the chess-rules engine. -/
abbrev Board : Type := CatVsDog.BoardOf Piece

/-- EnPassantTarget of the missing chess-types.ts.  Modelled from the spec:
the landing square of the two-step pawn and the square a capturing pawn
moves to. -/
structure EnPassantTarget where
  position : Pos
  capturePosition : Pos
deriving DecidableEq, Repr

/-- MoveResult of chess-rules.ts.  Fields the source leaves undefined on
some return paths default to false / none, matching how callers test them
for truthiness. -/
structure MoveResult where
  newBoard : Board
  capturedPiece : Option Piece
  isCastling : Bool := false
  isEnPassant : Bool := false
  isPromotion : Bool := false
  promotionPosition : Option Pos := none

/-- Opposite colour, the `kingColor === WHITE ? BLACK : WHITE` expressions. -/
def oppositeColor : PieceColor → PieceColor
  | PieceColor.white => PieceColor.black
  | PieceColor.black => PieceColor.white

/-- Per-colour pawn direction, `color === WHITE ? -1 : 1`. -/
def pawnDirection (c : PieceColor) : Int :=
  if c = PieceColor.white then -1 else 1

/-- Per-colour pawn start row, `color === WHITE ? 6 : 1`. -/
def pawnStartRow (c : PieceColor) : Int :=
  if c = PieceColor.white then 6 else 1

/-- isValidRookMove of chess-rules.ts: same row or column, all strictly
intermediate squares empty. -/
def isValidRookMove (b : Board) (fromPos toPos : Pos) : Bool :=
  if fromPos.row ≠ toPos.row ∧ fromPos.col ≠ toPos.col then false
  else if fromPos.row = toPos.row then
    (intRange (min fromPos.col toPos.col + 1)
        (max fromPos.col toPos.col - (min fromPos.col toPos.col + 1)).toNat).all
      (fun col => (b.get? fromPos.row col).isNone)
  else
    (intRange (min fromPos.row toPos.row + 1)
        (max fromPos.row toPos.row - (min fromPos.row toPos.row + 1)).toNat).all
      (fun row => (b.get? row fromPos.col).isNone)

/-- isValidKnightMove of chess-rules.ts. -/
def isValidKnightMove (fromPos toPos : Pos) : Bool :=
  let rowDiff := (fromPos.row - toPos.row).natAbs
  let colDiff := (fromPos.col - toPos.col).natAbs
  decide ((rowDiff = 2 ∧ colDiff = 1) ∨ (rowDiff = 1 ∧ colDiff = 2))

/-- isValidBishopMove of chess-rules.ts: equal row and column distance, all
strictly intermediate diagonal squares empty. -/
def isValidBishopMove (b : Board) (fromPos toPos : Pos) : Bool :=
  let rowDiff := (fromPos.row - toPos.row).natAbs
  let colDiff := (fromPos.col - toPos.col).natAbs
  if rowDiff ≠ colDiff then false
  else
    let rowDirection : Int := if fromPos.row < toPos.row then 1 else -1
    let colDirection : Int := if fromPos.col < toPos.col then 1 else -1
    (intRange 1 (rowDiff - 1)).all
      (fun i =>
        (b.get? (fromPos.row + i * rowDirection) (fromPos.col + i * colDirection)).isNone)

/-- isValidQueenMove of chess-rules.ts. -/
def isValidQueenMove (b : Board) (fromPos toPos : Pos) : Bool :=
  isValidRookMove b fromPos toPos || isValidBishopMove b fromPos toPos

/-- isValidKingMove of chess-rules.ts (the one-square rule; castling is
handled separately). -/
def isValidKingMove (fromPos toPos : Pos) : Bool :=
  decide ((fromPos.row - toPos.row).natAbs ≤ 1 ∧ (fromPos.col - toPos.col).natAbs ≤ 1)

/-- isValidPawnMove of chess-rules.ts, including the en-passant capture
square; reads the threaded en-passant target. -/
def isValidPawnMove (b : Board) (fromPos toPos : Pos)
    (ep : Option EnPassantTarget) : Bool :=
  match b.get? fromPos.row fromPos.col with
  | none => false
  | some piece =>
    if piece.type ≠ PieceType.pawn then false
    else
      let direction := pawnDirection piece.color
      let startRow := pawnStartRow piece.color
      if fromPos.col = toPos.col ∧ fromPos.row + direction = toPos.row ∧
          b.get? toPos.row toPos.col = none then true
      else if fromPos.col = toPos.col ∧ fromPos.row = startRow ∧
          fromPos.row + 2 * direction = toPos.row ∧
          b.get? (fromPos.row + direction) fromPos.col = none ∧
          b.get? toPos.row toPos.col = none then true
      else if (fromPos.col + 1 = toPos.col ∨ fromPos.col - 1 = toPos.col) ∧
          fromPos.row + direction = toPos.row then
        if b.get? toPos.row toPos.col ≠ none then true
        else
          match ep with
          | some t =>
            decide (toPos.row = t.capturePosition.row ∧ toPos.col = t.capturePosition.col)
          | none => false
      else false

/-- canPawnAttack of chess-rules.ts: the two diagonal capture squares only. -/
def canPawnAttack (piece : Piece) (fromPos toPos : Pos) : Bool :=
  let direction := pawnDirection piece.color
  decide ((fromPos.col + 1 = toPos.col ∨ fromPos.col - 1 = toPos.col) ∧
    fromPos.row + direction = toPos.row)

/-- canPieceAttack of chess-rules.ts: the movement test used by check
detection; it never recurses into check detection itself. -/
def canPieceAttack (b : Board) (fromPos toPos : Pos) : Bool :=
  match b.get? fromPos.row fromPos.col with
  | none => false
  | some piece =>
    let stop : Bool :=
      match b.get? toPos.row toPos.col with
      | some target => decide (target.color = piece.color)
      | none => false
    if stop then false
    else
      match piece.type with
      | PieceType.pawn => canPawnAttack piece fromPos toPos
      | PieceType.rook => isValidRookMove b fromPos toPos
      | PieceType.knight => isValidKnightMove fromPos toPos
      | PieceType.bishop => isValidBishopMove b fromPos toPos
      | PieceType.queen => isValidQueenMove b fromPos toPos
      | PieceType.king =>
        decide ((fromPos.row - toPos.row).natAbs ≤ 1 ∧ (fromPos.col - toPos.col).natAbs ≤ 1)

/-- findKingPosition of the missing chess-utils.ts.  Modelled from the
spec: locate the king by scanning the board (row-major, first hit). -/
def findKingPosition (b : Board) (color : PieceColor) : Option Pos :=
  allSquares.find? (fun p =>
    match b.get? p.row p.col with
    | some pc => decide (pc.type = PieceType.king ∧ pc.color = color)
    | none => false)

/-- isKingInCheck of chess-rules.ts: false when the king is absent,
otherwise true iff some opposing piece can attack the king square. -/
def isKingInCheck (b : Board) (kingColor : PieceColor) : Bool :=
  match findKingPosition b kingColor with
  | none => false
  | some kingPosition =>
    allSquares.any (fun p =>
      match b.get? p.row p.col with
      | some piece =>
        if piece.color = oppositeColor kingColor then
          canPieceAttack b p kingPosition
        else false
      | none => false)

/-- canCastle of chess-rules.ts: called with the king square and the own
rook square the king was dropped on. -/
def canCastle (b : Board) (kingPos rookPos : Pos) : Bool :=
  match b.get? kingPos.row kingPos.col, b.get? rookPos.row rookPos.col with
  | some king, some rook =>
    if king.type ≠ PieceType.king ∨ rook.type ≠ PieceType.rook then false
    else if king.color ≠ rook.color then false
    else if king.hasMoved ∨ rook.hasMoved then false
    else if kingPos.row ≠ rookPos.row then false
    else
      let isKingSide := kingPos.col < rookPos.col
      let start := min kingPos.col rookPos.col + 1
      let pathClear :=
        (intRange start (max kingPos.col rookPos.col - start).toNat).all
          (fun col => (b.get? kingPos.row col).isNone)
      if ¬ pathClear then false
      else if isKingInCheck b king.color then false
      else
        let direction : Int := if isKingSide then 1 else -1
        ([1, 2] : List Int).all (fun step =>
          let testCol := kingPos.col + step * direction
          let testBoard := (b.set kingPos.row kingPos.col none).set kingPos.row testCol (some king)
          ¬ isKingInCheck testBoard king.color)
  | _, _ => false

/-- isValidMove of chess-rules.ts: full legality for the current player,
including the castling exception and the simulated board used to reject
moves that leave the own king in check. -/
def isValidMove (b : Board) (fromPos toPos : Pos) (currentPlayer : PieceColor)
    (ep : Option EnPassantTarget) : Bool :=
  if fromPos.row = toPos.row ∧ fromPos.col = toPos.col then false
  else
    match b.get? fromPos.row fromPos.col with
    | none => false
    | some piece =>
      if piece.color ≠ currentPlayer then false
      else
        let targetPiece := b.get? toPos.row toPos.col
        let sameColorTarget : Bool :=
          match targetPiece with
          | some t => decide (t.color = piece.color)
          | none => false
        if sameColorTarget then
          if piece.type = PieceType.king ∧
              (match targetPiece with
               | some t => decide (t.type = PieceType.rook)
               | none => false : Bool) = true then
            canCastle b fromPos toPos
          else false
        else
          let validPieceMove : Bool :=
            match piece.type with
            | PieceType.pawn => isValidPawnMove b fromPos toPos ep
            | PieceType.rook => isValidRookMove b fromPos toPos
            | PieceType.knight => isValidKnightMove fromPos toPos
            | PieceType.bishop => isValidBishopMove b fromPos toPos
            | PieceType.queen => isValidQueenMove b fromPos toPos
            | PieceType.king => isValidKingMove fromPos toPos
          if ¬ validPieceMove then false
          else
            let afterEp :=
              match ep with
              | some t =>
                if piece.type = PieceType.pawn ∧
                    toPos.row = t.capturePosition.row ∧
                    toPos.col = t.capturePosition.col then
                  b.set t.position.row t.position.col none
                else b
              | none => b
            let moved :=
              (afterEp.set toPos.row toPos.col
                (afterEp.get? fromPos.row fromPos.col)).set fromPos.row fromPos.col none
            ¬ isKingInCheck moved piece.color

/-- Test used by makeMove for the castling branch: the square the king was
dropped on holds an own rook. -/
def isSameColorRook (piece : Piece) (target : Option Piece) : Bool :=
  match target with
  | some cp => decide (cp.type = PieceType.rook ∧ cp.color = piece.color)
  | none => false

/-- makeMove of chess-rules.ts.  The module level en-passant target is
threaded: it comes in as `ep` and the updated value is returned in the
second component.  The board passed in is cloned by the source before any
write; the pure model simply builds the new board by functional updates. -/
def makeMove (b : Board) (fromPos toPos : Pos)
    (ep : Option EnPassantTarget) : MoveResult × Option EnPassantTarget :=
  match b.get? fromPos.row fromPos.col with
  | none => ({ newBoard := b, capturedPiece := none }, ep)
  | some piece =>
    let captured0 := b.get? toPos.row toPos.col
    if piece.type = PieceType.king ∧ isSameColorRook piece captured0 then
      -- castling: king clicks on own rook
      let isKingSide := fromPos.col < toPos.col
      let newKingCol : Int := if isKingSide then 6 else 2
      let newRookCol : Int := if isKingSide then 5 else 3
      let b1 := (b.set fromPos.row fromPos.col none).set toPos.row toPos.col none
      let b2 := b1.set fromPos.row newKingCol (some { piece with hasMoved := true })
      let b3 := b2.set fromPos.row newRookCol
        (some { type := PieceType.rook, color := piece.color, hasMoved := true })
      ({ newBoard := b3, capturedPiece := none, isCastling := true }, none)
    else
      -- en passant capture
      let epCapture :=
        match ep with
        | some t =>
          decide (piece.type = PieceType.pawn ∧
            toPos.row = t.capturePosition.row ∧ toPos.col = t.capturePosition.col)
        | none => false
      let captured :=
        if epCapture then
          match ep with
          | some t => b.get? t.position.row t.position.col
          | none => captured0
        else captured0
      let bAfterEp :=
        if epCapture then
          match ep with
          | some t => b.set t.position.row t.position.col none
          | none => b
        else b
      -- track en passant: a two-square pawn move sets a fresh target,
      -- every other executed move clears it
      let epNew :=
        if piece.type = PieceType.pawn ∧ (fromPos.row - toPos.row).natAbs = 2 then
          some { position := { row := toPos.row, col := toPos.col }
                 capturePosition := { row := (fromPos.row + toPos.row) / 2, col := toPos.col } }
        else none
      let piece1 :=
        if piece.type = PieceType.pawn ∨ piece.type = PieceType.king ∨
            piece.type = PieceType.rook then
          { piece with hasMoved := true }
        else piece
      let isPromotion :=
        decide (piece.type = PieceType.pawn ∧ (toPos.row = 0 ∨ toPos.row = 7))
      let promotionPosition :=
        if isPromotion then some ({ row := toPos.row, col := toPos.col } : Pos) else none
      let b1 := (bAfterEp.set toPos.row toPos.col (some piece1)).set fromPos.row fromPos.col none
      ({ newBoard := b1, capturedPiece := captured, isCastling := false
         isEnPassant := epCapture, isPromotion := isPromotion
         promotionPosition := promotionPosition }, epNew)

/-- promotePawn of chess-rules.ts: replace the piece on the square by a
fresh piece of the chosen type with hasMoved true. -/
def promotePawn (b : Board) (position : Pos) (promotionType : PieceType) : Board :=
  match b.get? position.row position.col with
  | some piece =>
    b.set position.row position.col
      (some { type := promotionType, color := piece.color, hasMoved := true })
  | none => b

/-- hasLegalMoves of chess-rules.ts: scan every own piece against every
destination square. -/
def hasLegalMoves (b : Board) (color : PieceColor)
    (ep : Option EnPassantTarget) : Bool :=
  allSquares.any (fun fromP =>
    match b.get? fromP.row fromP.col with
    | some piece =>
      if piece.color = color then
        allSquares.any (fun toP => isValidMove b fromP toP color ep)
      else false
    | none => false)

/-- isCheck of chess-rules.ts. -/
def isCheck (b : Board) (color : PieceColor) : Bool :=
  isKingInCheck b color

/-- isCheckmate of chess-rules.ts. -/
def isCheckmate (b : Board) (color : PieceColor)
    (ep : Option EnPassantTarget) : Bool :=
  if ¬ isKingInCheck b color then false
  else ¬ hasLegalMoves b color ep

/-- isStalemate of chess-rules.ts. -/
def isStalemate (b : Board) (color : PieceColor)
    (ep : Option EnPassantTarget) : Bool :=
  if isKingInCheck b color then false
  else ¬ hasLegalMoves b color ep

/-- White pieces collected in scan order by hasInsufficientMaterial. -/
def whitePieces (b : Board) : List Piece :=
  allSquares.filterMap (fun p =>
    match b.get? p.row p.col with
    | some pc => if pc.color = PieceColor.white then some pc else none
    | none => none)

/-- Black pieces collected in scan order by hasInsufficientMaterial. -/
def blackPieces (b : Board) : List Piece :=
  allSquares.filterMap (fun p =>
    match b.get? p.row p.col with
    | some pc => if pc.color = PieceColor.black then some pc else none
    | none => none)

/-- Inner test of hasInsufficientMaterial: the first non-king piece of the
two-piece side is a bishop or a knight. -/
def minorNonKing (l : List Piece) : Bool :=
  match l.find? (fun p => decide (p.type ≠ PieceType.king)) with
  | some nonKing => decide (nonKing.type = PieceType.bishop ∨ nonKing.type = PieceType.knight)
  | none => false

/-- Bishop position found by the scan inside hasInsufficientMaterial; the
source overwrites on every hit, so the last bishop in scan order wins. -/
def bishopPosOf (b : Board) (c : PieceColor) : Option Pos :=
  (allSquares.filter (fun p =>
    match b.get? p.row p.col with
    | some pc => decide (pc.type = PieceType.bishop ∧ pc.color = c)
    | none => false)).getLast?

/-- Bishop branch of hasInsufficientMaterial: both sides hold a bishop and
the two bishops stand on squares of the same colour, (row+col) mod 2. -/
def kbkbSameColor (b : Board) (wp bp : List Piece) : Bool :=
  if (wp.find? (fun p => decide (p.type = PieceType.bishop))).isSome ∧
      (bp.find? (fun p => decide (p.type = PieceType.bishop))).isSome then
    match bishopPosOf b PieceColor.white, bishopPosOf b PieceColor.black with
    | some wPos, some bPos =>
      decide ((wPos.row + wPos.col) % 2 = (bPos.row + bPos.col) % 2)
    | _, _ => false
  else false

/-- hasInsufficientMaterial of chess-rules.ts.  Branches that fail their
inner test fall through to the next branch, as in the source. -/
def hasInsufficientMaterial (b : Board) : Bool :=
  let wp := whitePieces b
  let bp := blackPieces b
  if wp.length = 1 ∧ bp.length = 1 then true
  else if wp.length = 1 ∧ bp.length = 2 ∧ minorNonKing bp then true
  else if bp.length = 1 ∧ wp.length = 2 ∧ minorNonKing wp then true
  else if wp.length = 2 ∧ bp.length = 2 ∧ kbkbSameColor b wp bp then true
  else false

/-- Colour letter of boardToString, `color === WHITE ? "W" : "B"`. -/
def colorChar (c : PieceColor) : Char :=
  match c with
  | PieceColor.white => 'W'
  | PieceColor.black => 'B'

/-- Type letter of boardToString, `piece.type.charAt(0).toUpperCase()`.
Modelled from the spec for the missing enum values: the PieceType strings
are the six English piece names (part_000 maps them onto the chess-logic
names by toLowerCase), so the first letters are P, R, K, B, Q, K — knight
and king share the letter K. -/
def typeChar (t : PieceType) : Char :=
  match t with
  | PieceType.pawn => 'P'
  | PieceType.rook => 'R'
  | PieceType.knight => 'K'
  | PieceType.bishop => 'B'
  | PieceType.queen => 'Q'
  | PieceType.king => 'K'

/-- Per-square code of boardToString: "." for an empty square, otherwise
colour letter followed by type letter. -/
def squareChars (s : Option Piece) : List Char :=
  match s with
  | none => ['.']
  | some p => [colorChar p.color, typeChar p.type]

/-- Characters of one row of boardToString (the inner map/join with the
empty separator). -/
def rowChars (b : Board) (r : Fin 8) : List Char :=
  ((List.finRange 8).map (fun c => squareChars (b r c))).flatten

/-- Model of Array.join("/") on the row strings. -/
def joinRows : List (List Char) → List Char
  | [] => []
  | [r] => r
  | r :: rest => r ++ '/' :: joinRows rest

/-- boardToString of chess-rules.ts: per-square two character codes joined
row by row with "/" separators. -/
def boardToString (b : Board) : String :=
  ⟨joinRows ((List.finRange 8).map (fun r => rowChars b r))⟩

/-- Counting loop of checkThreefoldRepetition: walk the history, increment
on every hit of the last signature, return true as soon as the count
reaches three. -/
def repetitionLoop (lastPosition : String) : List String → Nat → Bool
  | [], _ => false
  | p :: rest, count =>
    let c := if p = lastPosition then count + 1 else count
    if 3 ≤ c then true else repetitionLoop lastPosition rest c

/-- checkThreefoldRepetition of chess-rules.ts. -/
def checkThreefoldRepetition (positionHistory : List String) : Bool :=
  if positionHistory.length < 5 then false
  else
    match positionHistory.getLast? with
    | none => false
    | some lastPosition => repetitionLoop lastPosition positionHistory 0

end CatVsDog.ChessRules

namespace CatVsDog.ChessLogic

/-- Players of chess-logic.ts, dogs = white, cats = black. -/
inductive Player where
  | cats
  | dogs
deriving DecidableEq, Repr

/-- Piece of chess-logic.ts; the optional hasMoved field is modelled as a
Bool, undefined being falsy everywhere the source reads it. -/
structure Piece where
  type : PieceType
  player : Player
  hasMoved : Bool
deriving DecidableEq, Repr

/-- Boards of the chess-logic engine. -/
abbrev Board : Type := CatVsDog.BoardOf Piece

/-- isInBounds of chess-logic.ts. -/
def isInBounds (row col : Int) : Bool :=
  decide (0 ≤ row ∧ row < 8 ∧ 0 ≤ col ∧ col < 8)

/-- getPawnMoves of chess-logic.ts: single push behind an isInBounds guard,
double push from the start row (destination row 4 or 3, always on the
board), and the two diagonal captures filtered by isInBounds. -/
def getPawnMoves (b : Board) (fromPos : Pos) (piece : Piece) : List Pos :=
  let direction : Int := if piece.player = Player.dogs then -1 else 1
  let startRow : Int := if piece.player = Player.dogs then 6 else 1
  let oneForward := fromPos.row + direction
  let forward : List Pos :=
    if isInBounds oneForward fromPos.col ∧ b.get? oneForward fromPos.col = none then
      let single : List Pos := [{ row := oneForward, col := fromPos.col }]
      if fromPos.row = startRow then
        let twoForward := fromPos.row + 2 * direction
        if b.get? twoForward fromPos.col = none then
          single ++ [{ row := twoForward, col := fromPos.col }]
        else single
      else single
    else []
  let captures : List Pos :=
    [{ row := fromPos.row + direction, col := fromPos.col - 1 },
     { row := fromPos.row + direction, col := fromPos.col + 1 }]
  forward ++ captures.filter (fun cap =>
    isInBounds cap.row cap.col &&
      (match b.get? cap.row cap.col with
       | some target => decide (target.player ≠ piece.player)
       | none => false))

/-- Ray walk of getRookMoves / getBishopMoves: step in direction (dRow,
dCol) while on the board, collecting empty squares, stopping before a
friendly piece and on an enemy piece inclusively.  The while loop of the
source runs at most 7 further squares in any direction, so fuel 8 is
enough; the call sites pass 8. -/
def rayMoves (b : Board) (piece : Piece) (dRow dCol : Int) :
    Int → Int → Nat → List Pos
  | _, _, 0 => []
  | row, col, fuel + 1 =>
    if isInBounds row col then
      match b.get? row col with
      | none => { row := row, col := col } :: rayMoves b piece dRow dCol (row + dRow) (col + dCol) fuel
      | some target =>
        if target.player ≠ piece.player then [{ row := row, col := col }] else []
    else []

/-- getRookMoves of chess-logic.ts. -/
def getRookMoves (b : Board) (fromPos : Pos) (piece : Piece) : List Pos :=
  ([((1 : Int), (0 : Int)), (-1, 0), (0, 1), (0, -1)]).flatMap
    (fun d => rayMoves b piece d.1 d.2 (fromPos.row + d.1) (fromPos.col + d.2) 8)

/-- getKnightMoves of chess-logic.ts. -/
def getKnightMoves (b : Board) (fromPos : Pos) (piece : Piece) : List Pos :=
  ([((-2 : Int), (-1 : Int)), (-2, 1), (-1, -2), (-1, 2), (1, -2), (1, 2), (2, -1), (2, 1)]).filterMap
    (fun offset =>
      let row := fromPos.row + offset.1
      let col := fromPos.col + offset.2
      if isInBounds row col then
        match b.get? row col with
        | none => some { row := row, col := col }
        | some target =>
          if target.player ≠ piece.player then some { row := row, col := col } else none
      else none)

/-- getBishopMoves of chess-logic.ts. -/
def getBishopMoves (b : Board) (fromPos : Pos) (piece : Piece) : List Pos :=
  ([((1 : Int), (1 : Int)), (1, -1), (-1, 1), (-1, -1)]).flatMap
    (fun d => rayMoves b piece d.1 d.2 (fromPos.row + d.1) (fromPos.col + d.2) 8)

/-- getQueenMoves of chess-logic.ts: rook rays then bishop rays. -/
def getQueenMoves (b : Board) (fromPos : Pos) (piece : Piece) : List Pos :=
  getRookMoves b fromPos piece ++ getBishopMoves b fromPos piece

/-- getKingMoves of chess-logic.ts. -/
def getKingMoves (b : Board) (fromPos : Pos) (piece : Piece) : List Pos :=
  ([((-1 : Int), (-1 : Int)), (-1, 0), (-1, 1), (0, -1), (0, 1), (1, -1), (1, 0), (1, 1)]).filterMap
    (fun offset =>
      let row := fromPos.row + offset.1
      let col := fromPos.col + offset.2
      if isInBounds row col then
        match b.get? row col with
        | none => some { row := row, col := col }
        | some target =>
          if target.player ≠ piece.player then some { row := row, col := col } else none
      else none)

/-- getValidMoves of chess-logic.ts: the pseudo-legal move generator. -/
def getValidMoves (b : Board) (fromPos : Pos) : List Pos :=
  match b.get? fromPos.row fromPos.col with
  | none => []
  | some piece =>
    match piece.type with
    | PieceType.pawn => getPawnMoves b fromPos piece
    | PieceType.rook => getRookMoves b fromPos piece
    | PieceType.knight => getKnightMoves b fromPos piece
    | PieceType.bishop => getBishopMoves b fromPos piece
    | PieceType.queen => getQueenMoves b fromPos piece
    | PieceType.king => getKingMoves b fromPos piece

/-- makeMove of chess-logic.ts: place the moved piece with hasMoved true,
clear the origin, and auto-promote a pawn reaching the last rank to a
queen. -/
def makeMove (b : Board) (fromPos toPos : Pos) : Board :=
  match b.get? fromPos.row fromPos.col with
  | none => b
  | some piece =>
    let b1 := (b.set toPos.row toPos.col (some { piece with hasMoved := true })).set
      fromPos.row fromPos.col none
    if piece.type = PieceType.pawn ∧
        ((piece.player = Player.dogs ∧ toPos.row = 0) ∨
          (piece.player = Player.cats ∧ toPos.row = 7)) then
      b1.set toPos.row toPos.col
        (some { type := PieceType.queen, player := piece.player, hasMoved := true })
    else b1

/-- isInCheck of chess-logic.ts: row-major scan for the king (false when
absent), then a scan over all opposing pieces whose pseudo-legal moves hit
the king square. -/
def isInCheck (b : Board) (player : Player) : Bool :=
  match allSquares.find? (fun p =>
    match b.get? p.row p.col with
    | some pc => decide (pc.type = PieceType.king ∧ pc.player = player)
    | none => false) with
  | none => false
  | some kingPos =>
    allSquares.any (fun p =>
      match b.get? p.row p.col with
      | some piece =>
        if piece.player ≠ player then
          (getValidMoves b p).any (fun m =>
            decide (m.row = kingPos.row ∧ m.col = kingPos.col))
        else false
      | none => false)

/-- isCheckmate of chess-logic.ts. -/
def isCheckmate (b : Board) (player : Player) : Bool :=
  if ¬ isInCheck b player then false
  else
    ¬ allSquares.any (fun fromP =>
      match b.get? fromP.row fromP.col with
      | some piece =>
        if piece.player = player then
          (getValidMoves b fromP).any (fun m =>
            ¬ isInCheck (makeMove b fromP m) player)
        else false
      | none => false)

/-- isStalemate of chess-logic.ts. -/
def isStalemate (b : Board) (player : Player) : Bool :=
  if isInCheck b player then false
  else
    ¬ allSquares.any (fun fromP =>
      match b.get? fromP.row fromP.col with
      | some piece =>
        if piece.player = player then
          (getValidMoves b fromP).any (fun m =>
            ¬ isInCheck (makeMove b fromP m) player)
        else false
      | none => false)

/-- getAllLegalMoves of chess-logic.ts. -/
def getAllLegalMoves (b : Board) (player : Player) : List (Pos × Pos) :=
  allSquares.flatMap (fun fromP =>
    match b.get? fromP.row fromP.col with
    | some piece =>
      if piece.player = player then
        (getValidMoves b fromP).filterMap (fun toP =>
          if ¬ isInCheck (makeMove b fromP toP) player then some (fromP, toP) else none)
      else []
    | none => [])

end CatVsDog.ChessLogic

namespace CatVsDog.ChessBot

open CatVsDog (Pos allSquares)

/-- Bot difficulty levels of chess-bot.ts. -/
inductive Difficulty where
  | easy
  | medium
  | hard
deriving DecidableEq, Repr

/-- Bot personalities of chess-bot.ts. -/
inductive Personality where
  | balanced
  | aggressive
  | defensive
deriving DecidableEq, Repr

/-- Candidate move record of chess-bot.ts: origin, destination and the
mutable score field. -/
structure Move where
  fromPos : Pos
  toPos : Pos
  score : Rat
deriving DecidableEq, Repr

/-- PIECE_VALUES of chess-bot.ts.  Scores are rationals because the
defensive bonus divides by 20; every value arising is exactly
representable in JS floating point, so the model computes the same
numbers. -/
def PIECE_VALUES : PieceType → Rat
  | PieceType.pawn => 100
  | PieceType.knight => 320
  | PieceType.bishop => 330
  | PieceType.rook => 500
  | PieceType.queen => 900
  | PieceType.king => 20000

/-- PAWN_POSITION_BONUS table of chess-bot.ts. -/
def PAWN_POSITION_BONUS : List (List Rat) :=
  [[0, 0, 0, 0, 0, 0, 0, 0],
   [50, 50, 50, 50, 50, 50, 50, 50],
   [10, 10, 20, 30, 30, 20, 10, 10],
   [5, 5, 10, 25, 25, 10, 5, 5],
   [0, 0, 0, 20, 20, 0, 0, 0],
   [5, -5, -10, 0, 0, -10, -5, 5],
   [5, 10, 10, -20, -20, 10, 10, 5],
   [0, 0, 0, 0, 0, 0, 0, 0]]

/-- KNIGHT_POSITION_BONUS table of chess-bot.ts. -/
def KNIGHT_POSITION_BONUS : List (List Rat) :=
  [[-50, -40, -30, -30, -30, -30, -40, -50],
   [-40, -20, 0, 0, 0, 0, -20, -40],
   [-30, 0, 10, 15, 15, 10, 0, -30],
   [-30, 5, 15, 20, 20, 15, 5, -30],
   [-30, 0, 15, 20, 20, 15, 0, -30],
   [-30, 5, 10, 15, 15, 10, 5, -30],
   [-40, -20, 0, 5, 5, 0, -20, -40],
   [-50, -40, -30, -30, -30, -30, -40, -50]]

/-- BISHOP_POSITION_BONUS table of chess-bot.ts. -/
def BISHOP_POSITION_BONUS : List (List Rat) :=
  [[-20, -10, -10, -10, -10, -10, -10, -20],
   [-10, 0, 0, 0, 0, 0, 0, -10],
   [-10, 0, 5, 10, 10, 5, 0, -10],
   [-10, 5, 5, 10, 10, 5, 5, -10],
   [-10, 0, 10, 10, 10, 10, 0, -10],
   [-10, 10, 10, 10, 10, 10, 10, -10],
   [-10, 5, 0, 0, 0, 0, 5, -10],
   [-20, -10, -10, -10, -10, -10, -10, -20]]

/-- KING_POSITION_BONUS table of chess-bot.ts. -/
def KING_POSITION_BONUS : List (List Rat) :=
  [[-30, -40, -40, -50, -50, -40, -40, -30],
   [-30, -40, -40, -50, -50, -40, -40, -30],
   [-30, -40, -40, -50, -50, -40, -40, -30],
   [-30, -40, -40, -50, -50, -40, -40, -30],
   [-20, -30, -30, -40, -40, -30, -30, -20],
   [-10, -20, -20, -20, -20, -20, -20, -10],
   [20, 20, 0, 0, 0, 0, 20, 20],
   [20, 30, 10, 0, 0, 10, 30, 20]]

/-- Table lookup `table[r][c]`; every call site stays inside 0..7, where
the default never fires. -/
def tableAt (table : List (List Rat)) (r c : Nat) : Rat :=
  (table.getD r []).getD c 0

/-- getPositionBonus of chess-bot.ts: table per piece type, rows mirrored
for black. -/
def getPositionBonus (piece : ChessRules.Piece) (position : Pos) : Rat :=
  let row : Int :=
    if piece.color = ChessRules.PieceColor.white then position.row else 7 - position.row
  match piece.type with
  | PieceType.pawn => tableAt PAWN_POSITION_BONUS row.toNat position.col.toNat
  | PieceType.knight => tableAt KNIGHT_POSITION_BONUS row.toNat position.col.toNat
  | PieceType.bishop => tableAt BISHOP_POSITION_BONUS row.toNat position.col.toNat
  | PieceType.king => tableAt KING_POSITION_BONUS row.toNat position.col.toNat
  | _ => 0

/-- evaluateBoard of chess-bot.ts: material plus positional bonus, counted
for the bot and against the opponent. -/
def evaluateBoard (b : ChessRules.Board) (botColor : ChessRules.PieceColor) : Rat :=
  allSquares.foldl (fun score p =>
    match b.get? p.row p.col with
    | none => score
    | some piece =>
      let pieceScore := PIECE_VALUES piece.type + getPositionBonus piece p
      if piece.color = botColor then score + pieceScore else score - pieceScore) 0

/-- getAllValidMoves of chess-bot.ts: all 64x64 origin/destination pairs
filtered through the rules engines isValidMove, scores initialised to 0. -/
def getAllValidMoves (b : ChessRules.Board) (color : ChessRules.PieceColor)
    (ep : Option ChessRules.EnPassantTarget) : List Move :=
  allSquares.flatMap (fun fromP =>
    match b.get? fromP.row fromP.col with
    | some piece =>
      if piece.color = color then
        allSquares.filterMap (fun toP =>
          if ChessRules.isValidMove b fromP toP color ep then
            some { fromPos := fromP, toPos := toP, score := 0 }
          else none)
      else []
    | none => [])

/-- evaluateMove of chess-bot.ts.  The makeMove call mutates the module
level en-passant target, so the updated target is returned and threaded
into the isCheckmate call, exactly as the ambient state flows in the
source. -/
def evaluateMove (b : ChessRules.Board) (move : Move)
    (botColor : ChessRules.PieceColor) (ep : Option ChessRules.EnPassantTarget) :
    Rat × Option ChessRules.EnPassantTarget :=
  let res := ChessRules.makeMove b move.fromPos move.toPos ep
  let score0 := evaluateBoard res.1.newBoard botColor
  let score1 := score0 +
    (match res.1.capturedPiece with
     | some cp => PIECE_VALUES cp.type / 2
     | none => 0)
  let opponentColor := ChessRules.oppositeColor botColor
  let score2 :=
    if ChessRules.isCheckmate res.1.newBoard opponentColor res.2 then score1 + 100000
    else score1
  (score2, res.2)

/-- getDefensiveBonus of chess-bot.ts: a twentieth of the value of every
own piece within Manhattan distance 2 of the destination. -/
def getDefensiveBonus (b : ChessRules.Board) (move : Move) : Rat :=
  match b.get? move.fromPos.row move.fromPos.col with
  | none => 0
  | some piece =>
    allSquares.foldl (fun bonus p =>
      match b.get? p.row p.col with
      | some targetPiece =>
        if targetPiece.color = piece.color then
          let dist := (move.toPos.row - p.row).natAbs + (move.toPos.col - p.col).natAbs
          if dist ≤ 2 then bonus + PIECE_VALUES targetPiece.type / 20 else bonus
        else bonus
      | none => bonus) 0

/-- Stable insertion of a move into a list sorted by descending score; an
earlier move stays in front of later moves with the same score, matching
the stable Array.prototype.sort of the host engines. -/
def insertMoveDesc (m : Move) : List Move → List Move
  | [] => [m]
  | x :: xs => if x.score ≤ m.score then m :: x :: xs else x :: insertMoveDesc m xs

/-- Stable sort by descending score, the model of
`moves.sort((a, b) => b.score - a.score)`. -/
def sortMovesDesc : List Move → List Move
  | [] => []
  | m :: rest => insertMoveDesc m (sortMovesDesc rest)

/-- Difficulty based selection of chess-bot.ts over the sorted move list.
The random draws of Math.random() are read from the stream `rng`; the
hard branch always takes the head of the sorted list and never consults
the stream.  The probability literals are modelled as the rationals 1/2
and 3/10 (the float 0.3 is infinitesimally smaller, which only perturbs
which stream values fall under the medium threshold, never the hard
path). -/
def selectMoveByDifficulty (sorted : List Move) (difficulty : Difficulty)
    (rng : Nat → Rat) : Option Move :=
  match sorted with
  | [] => none
  | top :: rest =>
    match difficulty with
    | Difficulty.easy =>
      if rng 0 < 1 / 2 ∧ 5 < (top :: rest).length then
        some ((top :: rest).getD
          (Int.floor (rng 1 * ((min 5 (top :: rest).length : Nat) : Rat))).toNat top)
      else some top
    | Difficulty.medium =>
      if rng 0 < 3 / 10 ∧ 3 < (top :: rest).length then
        some ((top :: rest).getD
          (Int.floor (rng 1 * ((min 3 (top :: rest).length : Nat) : Rat))).toNat top)
      else some top
    | Difficulty.hard => some top

/-- calculateBotMove of chess-bot.ts: score every legal move (threading
the en-passant state mutated by the simulating makeMove calls), apply the
personality modifiers, sort descending, and pick by difficulty. -/
def calculateBotMove (b : ChessRules.Board) (botColor : ChessRules.PieceColor)
    (difficulty : Difficulty) (personality : Personality)
    (ep : Option ChessRules.EnPassantTarget) (rng : Nat → Rat) :
    Option (Pos × Pos) :=
  let moves := getAllValidMoves b botColor ep
  if moves.isEmpty then none
  else
    let scoredState := moves.foldl
      (fun (acc : List Move × Option ChessRules.EnPassantTarget) move =>
        let eval := evaluateMove b move botColor acc.2
        let baseScore :=
          match personality with
          | Personality.aggressive =>
            eval.1 +
              (match b.get? move.toPos.row move.toPos.col with
               | some _ => 150
               | none => 0) - getDefensiveBonus b move * (1 / 2)
          | Personality.defensive =>
            eval.1 + getDefensiveBonus b move * (3 / 2) +
              (match b.get? move.toPos.row move.toPos.col with
               | some _ => -50
               | none => 0)
          | Personality.balanced => eval.1
        ({ move with score := baseScore } :: acc.1, eval.2))
      ([], ep)
    let sorted := sortMovesDesc scoredState.1.reverse
    (selectMoveByDifficulty sorted difficulty rng).map (fun m => (m.fromPos, m.toPos))

end CatVsDog.ChessBot

namespace CatVsDog.ChessAI

open CatVsDog (Pos allSquares intRange)
open CatVsDog.ChessLogic (Player)

/-- Model of the JS Infinity used to initialise alpha, beta and the best
values in chess-ai.ts.  Every finite score produced by the search is far
below 10^9 in magnitude (board evaluations stay under 2*10^6 and the mate
scores are 10^5), so the comparisons behave exactly like true infinity. -/
def INFINITY : Int := 1000000000

/-- PIECE_VALUES of chess-ai.ts; the record covers all six type names, so
the `|| 0` fallback of evaluateBoard never fires. -/
def PIECE_VALUES : PieceType → Int
  | PieceType.pawn => 100
  | PieceType.rook => 500
  | PieceType.knight => 320
  | PieceType.bishop => 330
  | PieceType.queen => 900
  | PieceType.king => 20000

/-- PAWN_POSITION_BONUS table of chess-ai.ts. -/
def PAWN_POSITION_BONUS : List (List Int) :=
  [[0, 0, 0, 0, 0, 0, 0, 0],
   [50, 50, 50, 50, 50, 50, 50, 50],
   [10, 10, 20, 30, 30, 20, 10, 10],
   [5, 5, 10, 25, 25, 10, 5, 5],
   [0, 0, 0, 20, 20, 0, 0, 0],
   [5, -5, -10, 0, 0, -10, -5, 5],
   [5, 10, 10, -20, -20, 10, 10, 5],
   [0, 0, 0, 0, 0, 0, 0, 0]]

/-- Table lookup modelling `PAWN_POSITION_BONUS[adjustedRow]?.[col] || 0`. -/
def tableAt (table : List (List Int)) (r c : Nat) : Int :=
  (table.getD r []).getD c 0

/-- evaluateBoard of chess-ai.ts: material for every piece plus the pawn
position bonus with rows mirrored for cats. -/
def evaluateBoard (b : ChessLogic.Board) (aiPlayer : Player) : Int :=
  allSquares.foldl (fun score p =>
    match b.get? p.row p.col with
    | none => score
    | some piece =>
      let pieceValue := PIECE_VALUES piece.type
      let positionBonus :=
        if piece.type = PieceType.pawn then
          let adjustedRow : Int := if piece.player = Player.dogs then p.row else 7 - p.row
          tableAt PAWN_POSITION_BONUS adjustedRow.toNat p.col.toNat
        else 0
      let totalValue := pieceValue + positionBonus
      if piece.player = aiPlayer then score + totalValue else score - totalValue) 0

/-- Opponent of a player, `aiPlayer === "cats" ? "dogs" : "cats"`. -/
def opponentOf : Player → Player
  | Player.cats => Player.dogs
  | Player.dogs => Player.cats

/-- State of the module level timeout bookkeeping of chess-ai.ts:
`nodesEvaluated`, the latched `isTimeExpired` flag, and the number of
Date.now() comparisons made so far (the index into the clock oracle). -/
structure AITimer where
  nodes : Nat
  expired : Bool
  calls : Nat
deriving DecidableEq, Repr

/-- checkTimeout of chess-ai.ts against a clock oracle: once latched it
stays true without consulting the clock; otherwise the oracle answers
whether the 3 second budget is exceeded at this query. -/
def checkTimeout (o : Nat → Bool) (t : AITimer) : Bool × AITimer :=
  if t.expired then (true, t)
  else if o t.calls then (true, { t with expired := true, calls := t.calls + 1 })
  else (false, { t with calls := t.calls + 1 })

/-- Maximizing loop body of minimax in chess-ai.ts: walk all 64x64
from/to pairs in row-major order, counting every visit, checking the
clock every 100 nodes, recursing on the legal moves of the maximizing
player, and returning early on a beta cutoff. -/
def mmMaxLoop (o : Nat → Bool) (aiPlayer : Player) (board : ChessLogic.Board)
    (recurse : ChessLogic.Board → Int → Int → AITimer → Int × AITimer) :
    List (Pos × Pos) → Int → Bool → Int → Int → AITimer → Int × Bool × AITimer
  | [], maxEval, validFound, _, _, timer => (maxEval, validFound, timer)
  | (fromP, toP) :: rest, maxEval, validFound, alpha, beta, timer =>
    let timer1 : AITimer := { timer with nodes := timer.nodes + 1 }
    let tchk := if timer1.nodes % 100 = 0 then checkTimeout o timer1 else (false, timer1)
    if tchk.1 then
      ((if validFound then maxEval else evaluateBoard board aiPlayer), validFound, tchk.2)
    else
      match board.get? fromP.row fromP.col with
      | some piece =>
        if piece.player = aiPlayer then
          if (ChessLogic.getValidMoves board fromP).any (fun m =>
              decide (m.row = toP.row ∧ m.col = toP.col)) then
            let newBoard := ChessLogic.makeMove board fromP toP
            if ¬ ChessLogic.isInCheck newBoard aiPlayer then
              let r := recurse newBoard alpha beta tchk.2
              let maxEval1 := max maxEval r.1
              let alpha1 := max alpha r.1
              if beta ≤ alpha1 then (maxEval1, true, r.2)
              else mmMaxLoop o aiPlayer board recurse rest maxEval1 true alpha1 beta r.2
            else mmMaxLoop o aiPlayer board recurse rest maxEval validFound alpha beta tchk.2
          else mmMaxLoop o aiPlayer board recurse rest maxEval validFound alpha beta tchk.2
        else mmMaxLoop o aiPlayer board recurse rest maxEval validFound alpha beta tchk.2
      | none => mmMaxLoop o aiPlayer board recurse rest maxEval validFound alpha beta tchk.2

/-- Minimizing loop body of minimax in chess-ai.ts, symmetric to the
maximizing loop with the opponents pieces and an alpha cutoff. -/
def mmMinLoop (o : Nat → Bool) (aiPlayer : Player) (board : ChessLogic.Board)
    (recurse : ChessLogic.Board → Int → Int → AITimer → Int × AITimer) :
    List (Pos × Pos) → Int → Bool → Int → Int → AITimer → Int × Bool × AITimer
  | [], minEval, validFound, _, _, timer => (minEval, validFound, timer)
  | (fromP, toP) :: rest, minEval, validFound, alpha, beta, timer =>
    let timer1 : AITimer := { timer with nodes := timer.nodes + 1 }
    let tchk := if timer1.nodes % 100 = 0 then checkTimeout o timer1 else (false, timer1)
    if tchk.1 then
      ((if validFound then minEval else evaluateBoard board aiPlayer), validFound, tchk.2)
    else
      match board.get? fromP.row fromP.col with
      | some piece =>
        if piece.player = opponentOf aiPlayer then
          if (ChessLogic.getValidMoves board fromP).any (fun m =>
              decide (m.row = toP.row ∧ m.col = toP.col)) then
            let newBoard := ChessLogic.makeMove board fromP toP
            if ¬ ChessLogic.isInCheck newBoard (opponentOf aiPlayer) then
              let r := recurse newBoard alpha beta tchk.2
              let minEval1 := min minEval r.1
              let beta1 := min beta r.1
              if beta1 ≤ alpha then (minEval1, true, r.2)
              else mmMinLoop o aiPlayer board recurse rest minEval1 true alpha beta1 r.2
            else mmMinLoop o aiPlayer board recurse rest minEval validFound alpha beta tchk.2
          else mmMinLoop o aiPlayer board recurse rest minEval validFound alpha beta tchk.2
        else mmMinLoop o aiPlayer board recurse rest minEval validFound alpha beta tchk.2
      | none => mmMinLoop o aiPlayer board recurse rest minEval validFound alpha beta tchk.2

/-- All 64x64 from/to square pairs in the iteration order of the four
nested loops of chess-ai.ts. -/
def allMovePairs : List (Pos × Pos) :=
  allSquares.flatMap (fun f => allSquares.map (fun t => (f, t)))

/-- minimax of chess-ai.ts with alpha-beta pruning and the threaded
timeout state.  Checks the clock on entry, evaluates at depth 0, scores
checkmate at -100000 / 100000 and stalemate at 0, then runs the
maximizing or minimizing loop; with no legal move found the loops fall
back to the static evaluation, as the source does. -/
def minimax (o : Nat → Bool) (aiPlayer : Player) :
    Nat → Bool → ChessLogic.Board → Int → Int → AITimer → Int × AITimer
  | depth, isMax, board, alpha, beta, timer =>
    let tchk := checkTimeout o timer
    if tchk.1 then (evaluateBoard board aiPlayer, tchk.2)
    else
      let currentPlayer := if isMax then aiPlayer else opponentOf aiPlayer
      if h : depth = 0 then (evaluateBoard board aiPlayer, tchk.2)
      else if ChessLogic.isCheckmate board currentPlayer then
        ((if isMax then -100000 else 100000), tchk.2)
      else if ChessLogic.isStalemate board currentPlayer then (0, tchk.2)
      else if isMax then
        let res := mmMaxLoop o aiPlayer board
          (fun b a bt t => minimax o aiPlayer (depth - 1) false b a bt t)
          allMovePairs (-INFINITY) false alpha beta tchk.2
        ((if res.2.1 then res.1 else evaluateBoard board aiPlayer), res.2.2)
      else
        let res := mmMinLoop o aiPlayer board
          (fun b a bt t => minimax o aiPlayer (depth - 1) true b a bt t)
          allMovePairs INFINITY false alpha beta tchk.2
        ((if res.2.1 then res.1 else evaluateBoard board aiPlayer), res.2.2)
termination_by depth _ _ _ _ _ => depth
decreasing_by all_goals omega

/-- Search state of findBestMove: best move and value so far, the local
totalPositionsChecked counter and the timeout state. -/
structure FBState where
  bestMove : Option (Pos × Pos)
  bestValue : Int
  total : Nat
  timer : AITimer

/-- Inner toCol loop of findBestMove for a fixed origin and destination
row: count every pair, check the clock every 256 pairs (stopping on
expiry), and run depth-2 minimax on every legal move of the ai player. -/
def fbCols (o : Nat → Bool) (aiPlayer : Player) (board : ChessLogic.Board)
    (fromP : Pos) (toRow : Int) : List Int → FBState → FBState
  | [], st => st
  | toCol :: rest, st =>
    let total1 := st.total + 1
    let tchk :=
      if total1 % 256 = 0 then checkTimeout o st.timer else (false, st.timer)
    if tchk.1 then { st with total := total1, timer := tchk.2 }
    else
      let st1 : FBState := { st with total := total1, timer := tchk.2 }
      match board.get? fromP.row fromP.col with
      | some piece =>
        if piece.player = aiPlayer then
          if (ChessLogic.getValidMoves board fromP).any (fun m =>
              decide (m.row = toRow ∧ m.col = toCol)) then
            let newBoard := ChessLogic.makeMove board fromP { row := toRow, col := toCol }
            if ¬ ChessLogic.isInCheck newBoard aiPlayer then
              let r := minimax o aiPlayer 2 false newBoard (-INFINITY) INFINITY st1.timer
              let st2 : FBState :=
                if st1.bestValue < r.1 then
                  { st1 with bestMove := some (fromP, { row := toRow, col := toCol })
                             bestValue := r.1, timer := r.2 }
                else { st1 with timer := r.2 }
              fbCols o aiPlayer board fromP toRow rest st2
            else fbCols o aiPlayer board fromP toRow rest st1
          else fbCols o aiPlayer board fromP toRow rest st1
        else fbCols o aiPlayer board fromP toRow rest st1
      | none => fbCols o aiPlayer board fromP toRow rest st1

/-- Inner toRow loop of findBestMove: after each column sweep the source
breaks out when the time has expired. -/
def fbRows (o : Nat → Bool) (aiPlayer : Player) (board : ChessLogic.Board)
    (fromP : Pos) : List Int → FBState → FBState
  | [], st => st
  | toRow :: rest, st =>
    let st1 := fbCols o aiPlayer board fromP toRow (intRange 0 8) st
    if st1.timer.expired then st1
    else fbRows o aiPlayer board fromP rest st1

/-- Outer loop of findBestMove over the origin squares; the fromCol and
fromRow break-on-expiry cascades of the source collapse to stopping after
the origin square in which the time expired. -/
def fbOuter (o : Nat → Bool) (aiPlayer : Player) (board : ChessLogic.Board) :
    List Pos → FBState → FBState
  | [], st => st
  | fromP :: rest, st =>
    let st1 := fbRows o aiPlayer board fromP (intRange 0 8) st
    if st1.timer.expired then st1
    else fbOuter o aiPlayer board rest st1

/-- findBestMove of chess-ai.ts: reset the timeout state, scan all 64x64
pairs running depth-2 minimax on every legal move, and return the best
move found (null when there is none).  The console logging of the source
has no observable effect and is omitted. -/
def findBestMove (board : ChessLogic.Board) (aiPlayer : Player)
    (o : Nat → Bool) : Option (Pos × Pos) :=
  let st0 : FBState :=
    { bestMove := none, bestValue := -INFINITY, total := 0
      timer := { nodes := 0, expired := false, calls := 0 } }
  (fbOuter o aiPlayer board allSquares st0).bestMove

end CatVsDog.ChessAI

namespace CatVsDog

/-- Model of the JS object heap used to settle the frame-effect claim: a
store of piece objects addressed by references and an allocation counter.
A JS board array holds references to piece objects, so a board is a
`BoardOf Nat`; mutating a piece object writes the heap at its reference
while aliased boards keep pointing at it. -/
structure Heap (α : Type) where
  data : Nat → α
  next : Nat

/-- Allocation of a fresh object, `{ ... }` literals and spreads in JS:
returns the fresh reference and the extended heap. -/
def Heap.alloc {α : Type} (h : Heap α) (v : α) : Nat × Heap α :=
  (h.next, { data := Function.update h.data h.next v, next := h.next + 1 })

/-- In-place mutation of the object at a reference, `obj.field = v`. -/
def Heap.write {α : Type} (h : Heap α) (r : Nat) (v : α) : Heap α :=
  { h with data := Function.update h.data r v }

/-- Contents of a board square observed through the heap. -/
def obsAt {α : Type} (b : BoardOf Nat) (h : Heap α) (r c : Fin 8) : Option α :=
  (b r c).map h.data

/-- Well-formed reference board: every reference points below the
allocation counter. -/
def refsBelow {α : Type} (b : BoardOf Nat) (h : Heap α) : Prop :=
  ∀ r c : Fin 8, ∀ ref, b r c = some ref → ref < h.next

/-- Board built from an explicit association list of squares, a test
fixture builder for the concrete witnesses below. -/
def BoardOf.ofList {π : Type} (l : List ((Nat × Nat) × π)) : BoardOf π :=
  fun r c =>
    (l.find? (fun e => decide (e.1.1 = r.val ∧ e.1.2 = c.val))).map (fun e => e.2)

end CatVsDog

namespace CatVsDog.ChessLogic

/-- Heap-level rendering of makeMove of chess-logic.ts, used for the
frame-effect claim.  The source copies the row arrays
(`board.map((row) => [...row])`), so the new board value shares piece
references with the input; it then stores two freshly allocated objects
(`{ ...piece, hasMoved: true }` and the promotion queen literal) and never
mutates an existing object. -/
def makeMoveH (b : BoardOf Nat) (fromPos toPos : Pos) (hp : Heap Piece) :
    BoardOf Nat × Heap Piece :=
  match b.get? fromPos.row fromPos.col with
  | none => (b, hp)
  | some pref =>
    let piece := hp.data pref
    let a1 := hp.alloc { piece with hasMoved := true }
    let b1 := (b.set toPos.row toPos.col (some a1.1)).set fromPos.row fromPos.col none
    if piece.type = PieceType.pawn ∧
        ((piece.player = Player.dogs ∧ toPos.row = 0) ∨
          (piece.player = Player.cats ∧ toPos.row = 7)) then
      let a2 := a1.2.alloc { type := PieceType.queen, player := piece.player, hasMoved := true }
      (b1.set toPos.row toPos.col (some a2.1), a2.2)
    else (b1, a1.2)

end CatVsDog.ChessLogic

namespace CatVsDog.ChessRules

/-- cloneBoard of the missing chess-utils.ts at heap level.  Modelled from
the spec: the board is replaced wholesale and never mutated in place, so
the clone allocates a fresh piece object for every occupied square
(row-major), copying its fields. -/
def cloneStep (b : BoardOf Nat) (acc : BoardOf Nat × Heap Piece) (p : Pos) :
    BoardOf Nat × Heap Piece :=
  match b.get? p.row p.col with
  | some ref =>
    let a := acc.2.alloc (acc.2.data ref)
    (acc.1.set p.row p.col (some a.1), a.2)
  | none => (acc.1.set p.row p.col none, acc.2)

/-- Fold of the per-square clone step over the 64 squares. -/
def cloneH (b : BoardOf Nat) (hp : Heap Piece) : BoardOf Nat × Heap Piece :=
  allSquares.foldl (cloneStep b) (BoardOf.empty Nat, hp)

/-- Castling test of makeMove at heap level: the reference on the
destination square holds an own rook. -/
def isSameColorRookH (hp : Heap Piece) (piece : Piece) (target : Option Nat) : Bool :=
  match target with
  | some cref =>
    decide ((hp.data cref).type = PieceType.rook ∧ (hp.data cref).color = piece.color)
  | none => false

/-- Heap-level rendering of makeMove of chess-rules.ts, used for the
frame-effect claim.  It clones the board first; its single in-place object
mutation (`piece.hasMoved = true`) therefore hits a clone-allocated
object, and the castling branch stores two freshly allocated objects. -/
def makeMoveH (b : BoardOf Nat) (fromPos toPos : Pos) (hp : Heap Piece)
    (ep : Option EnPassantTarget) :
    (BoardOf Nat × Heap Piece) × Option EnPassantTarget :=
  let c := cloneH b hp
  let newBoard := c.1
  let hp1 := c.2
  match newBoard.get? fromPos.row fromPos.col with
  | none => ((newBoard, hp1), ep)
  | some pref =>
    let piece := hp1.data pref
    let captured0 := newBoard.get? toPos.row toPos.col
    if piece.type = PieceType.king ∧ isSameColorRookH hp1 piece captured0 then
      let isKingSide := fromPos.col < toPos.col
      let newKingCol : Int := if isKingSide then 6 else 2
      let newRookCol : Int := if isKingSide then 5 else 3
      let b1 := (newBoard.set fromPos.row fromPos.col none).set toPos.row toPos.col none
      let a1 := hp1.alloc { piece with hasMoved := true }
      let b2 := b1.set fromPos.row newKingCol (some a1.1)
      let a2 := a1.2.alloc { type := PieceType.rook, color := piece.color, hasMoved := true }
      let b3 := b2.set fromPos.row newRookCol (some a2.1)
      ((b3, a2.2), none)
    else
      let epCapture :=
        match ep with
        | some t =>
          decide (piece.type = PieceType.pawn ∧
            toPos.row = t.capturePosition.row ∧ toPos.col = t.capturePosition.col)
        | none => false
      let bAfterEp :=
        if epCapture then
          match ep with
          | some t => newBoard.set t.position.row t.position.col none
          | none => newBoard
        else newBoard
      let epNew :=
        if piece.type = PieceType.pawn ∧ (fromPos.row - toPos.row).natAbs = 2 then
          some { position := ({ row := toPos.row, col := toPos.col } : Pos)
                 capturePosition :=
                   ({ row := (fromPos.row + toPos.row) / 2, col := toPos.col } : Pos) }
        else none
      let hp2 :=
        if piece.type = PieceType.pawn ∨ piece.type = PieceType.king ∨
            piece.type = PieceType.rook then
          hp1.write pref { piece with hasMoved := true }
        else hp1
      let b1 := (bAfterEp.set toPos.row toPos.col (some pref)).set fromPos.row fromPos.col none
      ((b1, hp2), epNew)

/-- Knight on a1 only, white: counterexample board for the signature
claim. -/
def knightBoard : Board :=
  BoardOf.ofList [((0, 0), { type := PieceType.knight, color := PieceColor.white, hasMoved := false })]

/-- King on a1 only, white: counterexample board for the signature
claim. -/
def kingBoard : Board :=
  BoardOf.ofList [((0, 0), { type := PieceType.king, color := PieceColor.white, hasMoved := false })]

/-- Legal white kingside castling position: kings on their home squares,
white rook on h1, nothing else. -/
def castleBoard : Board :=
  BoardOf.ofList
    [((7, 4), { type := PieceType.king, color := PieceColor.white, hasMoved := false }),
     ((7, 7), { type := PieceType.rook, color := PieceColor.white, hasMoved := false }),
     ((0, 4), { type := PieceType.king, color := PieceColor.black, hasMoved := false })]

/-- White pawn one step from promotion, with both kings present. -/
def promoBoard : Board :=
  BoardOf.ofList
    [((1, 0), { type := PieceType.pawn, color := PieceColor.white, hasMoved := true }),
     ((7, 4), { type := PieceType.king, color := PieceColor.white, hasMoved := false }),
     ((0, 7), { type := PieceType.king, color := PieceColor.black, hasMoved := false })]

/-- King versus king. -/
def kvkBoard : Board :=
  BoardOf.ofList
    [((0, 0), { type := PieceType.king, color := PieceColor.white, hasMoved := false }),
     ((7, 7), { type := PieceType.king, color := PieceColor.black, hasMoved := false })]

/-- King and knight versus lone king. -/
def knvkBoard : Board :=
  BoardOf.ofList
    [((0, 0), { type := PieceType.king, color := PieceColor.white, hasMoved := false }),
     ((3, 3), { type := PieceType.knight, color := PieceColor.white, hasMoved := false }),
     ((7, 7), { type := PieceType.king, color := PieceColor.black, hasMoved := false })]

/-- King and bishop versus king and bishop, both bishops on dark squares
in the (row+col) mod 2 colouring. -/
def kbkbBoard : Board :=
  BoardOf.ofList
    [((0, 0), { type := PieceType.king, color := PieceColor.white, hasMoved := false }),
     ((2, 1), { type := PieceType.bishop, color := PieceColor.white, hasMoved := false }),
     ((7, 7), { type := PieceType.king, color := PieceColor.black, hasMoved := false }),
     ((5, 4), { type := PieceType.bishop, color := PieceColor.black, hasMoved := false })]

/-- King and rook versus lone king. -/
def krvkBoard : Board :=
  BoardOf.ofList
    [((0, 0), { type := PieceType.king, color := PieceColor.white, hasMoved := false }),
     ((3, 3), { type := PieceType.rook, color := PieceColor.white, hasMoved := false }),
     ((7, 7), { type := PieceType.king, color := PieceColor.black, hasMoved := false })]

/-- Board without any king: a single white pawn. -/
def kinglessBoard : Board :=
  BoardOf.ofList [((4, 4), { type := PieceType.pawn, color := PieceColor.white, hasMoved := false })]

/-- Identification of knight and king forced by the shared type letter K
in boardToString; part of the amended signature claim. -/
def canonType (t : PieceType) : PieceType :=
  if t = PieceType.knight then PieceType.king else t

/-- Information about a square that boardToString records: occupancy,
side, and type up to the knight/king identification; the hasMoved flag is
not encoded.  Part of the amended signature claim. -/
def squareClass (s : Option Piece) : Option (PieceColor × PieceType) :=
  s.map (fun p => (p.color, canonType p.type))

end CatVsDog.ChessRules

namespace CatVsDog.ChessLogic

/-- Dogs pawn one step from the promotion rank, dogs king present:
counterexample board for the promotion claim. -/
def autoPromoBoard : Board :=
  BoardOf.ofList
    [((1, 0), { type := PieceType.pawn, player := Player.dogs, hasMoved := true }),
     ((7, 4), { type := PieceType.king, player := Player.dogs, hasMoved := false }),
     ((0, 7), { type := PieceType.king, player := Player.cats, hasMoved := false })]

/-- Single dogs pawn on its start square, for the bounds witness. -/
def pawnOnlyBoard : Board :=
  BoardOf.ofList [((6, 0), { type := PieceType.pawn, player := Player.dogs, hasMoved := false })]

end CatVsDog.ChessLogic

namespace CatVsDog

theorem mem_intRange {i s : Int} {n : Nat} :
    i ∈ intRange s n ↔ s ≤ i ∧ i < s + n := by
  constructor
  · intro hi
    obtain ⟨k, hk, he⟩ := List.mem_map.mp hi
    rw [List.mem_range] at hk
    omega
  · intro h
    exact List.mem_map.mpr ⟨(i - s).toNat, List.mem_range.mpr (by omega), by omega⟩

theorem intRange_all_iff {p : Int → Bool} {s : Int} {n : Nat} :
    (intRange s n).all p = true ↔ ∀ i : Int, s ≤ i → i < s + n → p i = true := by
  rw [List.all_eq_true]
  constructor
  · intro h i h1 h2
    exact h i (mem_intRange.mpr ⟨h1, h2⟩)
  · intro h i hi
    obtain ⟨h1, h2⟩ := mem_intRange.mp hi
    exact h i h1 h2

theorem BoardOf.get?_eq_of_bounds {π : Type} (b : BoardOf π) {r c : Int}
    (h : 0 ≤ r ∧ r < 8 ∧ 0 ≤ c ∧ c < 8) :
    b.get? r c = b ⟨r.toNat, by omega⟩ ⟨c.toNat, by omega⟩ :=
  dif_pos h

theorem BoardOf.get?_fin {π : Type} (b : BoardOf π) (i j : Fin 8) :
    b.get? (i : ℕ) (j : ℕ) = b i j := by
  rw [BoardOf.get?_eq_of_bounds b (by constructor <;> omega)]
  congr 1

theorem BoardOf.get?_set_eq {π : Type} (b : BoardOf π) {r c : Int} (v : Option π)
    (h : 0 ≤ r ∧ r < 8 ∧ 0 ≤ c ∧ c < 8) :
    (BoardOf.set b r c v).get? r c = v := by
  rw [BoardOf.get?_eq_of_bounds _ h]
  unfold BoardOf.set
  have hr : ((r.toNat : ℕ) : ℤ) = r := Int.toNat_of_nonneg h.1
  have hc : ((c.toNat : ℕ) : ℤ) = c := Int.toNat_of_nonneg h.2.2.1
  simp [hr, hc]

theorem BoardOf.get?_set_ne {π : Type} (b : BoardOf π) {r c r₁ c₁ : Int} (v : Option π)
    (h : ¬(r₁ = r ∧ c₁ = c)) :
    (BoardOf.set b r c v).get? r₁ c₁ = b.get? r₁ c₁ := by
  by_cases hb : 0 ≤ r₁ ∧ r₁ < 8 ∧ 0 ≤ c₁ ∧ c₁ < 8
  · rw [BoardOf.get?_eq_of_bounds _ hb, BoardOf.get?_eq_of_bounds _ hb]
    unfold BoardOf.set
    have hr : ((r₁.toNat : ℕ) : ℤ) = r₁ := Int.toNat_of_nonneg hb.1
    have hc : ((c₁.toNat : ℕ) : ℤ) = c₁ := Int.toNat_of_nonneg hb.2.2.1
    simp [hr, hc, h]
  · unfold BoardOf.set BoardOf.get?
    rw [dif_neg hb, dif_neg hb]

theorem BoardOf.set_apply {π : Type} (b : BoardOf π) (r c : Int) (v : Option π)
    (i j : Fin 8) :
    (BoardOf.set b r c v) i j = v ∨ (BoardOf.set b r c v) i j = b i j := by
  unfold BoardOf.set
  split
  · exact Or.inl rfl
  · exact Or.inr rfl

end CatVsDog

namespace CatVsDog

theorem repetitionLoop_true_iff (lastPosition : String) :
    ∀ (l : List String) (count : Nat), count < 3 →
      (ChessRules.repetitionLoop lastPosition l count = true ↔
        3 ≤ count + l.count lastPosition) := by
  intro l
  induction l with
  | nil =>
    intro count hc
    unfold ChessRules.repetitionLoop
    simp
    omega
  | cons p rest ih =>
    intro count hc
    unfold ChessRules.repetitionLoop
    by_cases hp : p = lastPosition
    · by_cases h3 : 3 ≤ count + 1
      · simp [hp, h3, List.count_cons]
        omega
      · rw [if_pos hp, if_neg h3, ih (count + 1) (by omega)]
        simp [List.count_cons, hp]
        omega
    · have h3 : ¬ 3 ≤ count := by omega
      rw [if_neg hp, if_neg h3, ih count hc]
      have : (p :: rest).count lastPosition = rest.count lastPosition := by
        simp [List.count_cons, hp]
      rw [this]

/-- C3 counterexample: calling the move executor with an empty source
square leaves a previously set en-passant target in place, although the
call executed no pawn double step, so the claimed biconditional fails for
such calls. -/
theorem c3_enPassantCounterexample :
    (BoardOf.empty ChessRules.Piece).get? 0 0 = none ∧
      (ChessRules.makeMove (BoardOf.empty ChessRules.Piece) ⟨0, 0⟩ ⟨1, 0⟩
          (some ⟨⟨3, 3⟩, ⟨2, 3⟩⟩)).2 = some ⟨⟨3, 3⟩, ⟨2, 3⟩⟩ := by
  constructor <;> rfl

/-- C3 (amended): provided the source square holds a piece, the executor
returns the en-passant target set exactly when the moved piece is a pawn
whose row distance is two, recording the landing square and the crossed
square behind it; every other executed move returns a cleared target.  At
most one target can exist because the whole state is a single optional
value. -/
theorem c3_enPassantTargetUpdate :
    ∀ (b : ChessRules.Board) (fromPos toPos : Pos)
      (ep : Option ChessRules.EnPassantTarget) (piece : ChessRules.Piece),
      b.get? fromPos.row fromPos.col = some piece →
      (ChessRules.makeMove b fromPos toPos ep).2 =
        (if piece.type = PieceType.pawn ∧ (fromPos.row - toPos.row).natAbs = 2 then
          some { position := toPos
                 capturePosition := { row := (fromPos.row + toPos.row) / 2, col := toPos.col } }
        else none) := by
  intro b fromPos toPos ep piece hfrom
  unfold ChessRules.makeMove
  rw [hfrom]
  simp only []
  split
  · rename_i hcastle
    have : ¬ (piece.type = PieceType.pawn ∧ (fromPos.row - toPos.row).natAbs = 2) := by
      intro hpawn
      rw [hpawn.1] at hcastle
      exact absurd hcastle.1 (by decide)
    rw [if_neg this]
  · rfl

/-- C3 witness: a concrete pawn double step from the promotion test board
sets the target on the landing square with the crossed square behind it. -/
theorem c3_enPassantTargetUpdate_witness :
    (ChessRules.makeMove ChessRules.promoBoard ⟨1, 0⟩ ⟨3, 0⟩ none).2 =
      some ⟨⟨3, 0⟩, ⟨2, 0⟩⟩ :=
  (c3_enPassantTargetUpdate ChessRules.promoBoard ⟨1, 0⟩ ⟨3, 0⟩ none
    { type := PieceType.pawn, color := ChessRules.PieceColor.white, hasMoved := true }
    (by decide)).trans (by decide)

/-- C5: checkThreefoldRepetition returns true exactly when the history has
at least five entries and its last signature occurs at least three times
in the whole history. -/
theorem c5_threefoldRepetition :
    ∀ l : List String,
      ChessRules.checkThreefoldRepetition l = true ↔
        (5 ≤ l.length ∧ ∃ lastPos, l.getLast? = some lastPos ∧ 3 ≤ l.count lastPos) := by
  intro l
  unfold ChessRules.checkThreefoldRepetition
  by_cases hlen : l.length < 5
  · rw [if_pos hlen]
    constructor
    · intro h
      exact absurd h (by simp)
    · rintro ⟨h5, -⟩
      omega
  · rw [if_neg hlen]
    cases hx : l.getLast? with
    | none =>
      rw [List.getLast?_eq_none_iff] at hx
      subst hx
      simp at hlen
    | some lastPos =>
      rw [repetitionLoop_true_iff lastPos l 0 (by omega)]
      simp only [Nat.zero_add]
      constructor
      · intro h3
        exact ⟨by omega, lastPos, rfl, h3⟩
      · rintro ⟨-, x, hx2, h3⟩
        cases hx2
        exact h3

/-- C5 witness: the synthetic history with one signature at indices 0, 2
and 4 triggers the rule; a history whose last signature occurs only twice
does not. -/
theorem c5_threefoldRepetition_witness :
    ChessRules.checkThreefoldRepetition ["a", "b", "a", "c", "a"] = true ∧
      ChessRules.checkThreefoldRepetition ["a", "b", "c", "b", "a"] = false := by
  constructor
  · exact (c5_threefoldRepetition _).mpr ⟨by decide, "a", by decide, by decide⟩
  · by_contra h
    rw [Bool.not_eq_false] at h
    obtain ⟨-, x, hx, hc⟩ := (c5_threefoldRepetition _).mp h
    cases hx
    revert hc
    decide

/-- C7: on any well-typed board on which the given side has no king, both
check detectors return false (and, being total Lean functions over total
board reads, they are defined on every syntactically valid board). -/
theorem c7_missingKingNotInCheck :
    (∀ (b : ChessRules.Board) (color : ChessRules.PieceColor),
      (∀ (r c : Fin 8) (p : ChessRules.Piece), b r c = some p →
        ¬(p.type = PieceType.king ∧ p.color = color)) →
      ChessRules.isKingInCheck b color = false) ∧
    (∀ (b : ChessLogic.Board) (player : ChessLogic.Player),
      (∀ (r c : Fin 8) (p : ChessLogic.Piece), b r c = some p →
        ¬(p.type = PieceType.king ∧ p.player = player)) →
      ChessLogic.isInCheck b player = false) := by
  constructor
  · intro b color h
    have hfind : ChessRules.findKingPosition b color = none := by
      unfold ChessRules.findKingPosition
      rw [List.find?_eq_none]
      intro p hp
      cases hg : b.get? p.row p.col with
      | none => simp [hg]
      | some pc =>
        have hb := BoardOf.get?_eq_some_bounds hg
        have hfin : b ⟨p.row.toNat, by omega⟩ ⟨p.col.toNat, by omega⟩ = some pc :=
          (BoardOf.get?_eq_of_bounds b hb).symm.trans hg
        have hnk := h _ _ _ hfin
        simp [hg, hnk]
    unfold ChessRules.isKingInCheck
    rw [hfind]
  · intro b player h
    have hfind : (allSquares.find? (fun p =>
        match b.get? p.row p.col with
        | some pc => decide (pc.type = PieceType.king ∧ pc.player = player)
        | none => false)) = none := by
      rw [List.find?_eq_none]
      intro p hp
      cases hg : b.get? p.row p.col with
      | none => simp [hg]
      | some pc =>
        have hb := BoardOf.get?_eq_some_bounds hg
        have hfin : b ⟨p.row.toNat, by omega⟩ ⟨p.col.toNat, by omega⟩ = some pc :=
          (BoardOf.get?_eq_of_bounds b hb).symm.trans hg
        have hnk := h _ _ _ hfin
        simp [hg, hnk]
    unfold ChessLogic.isInCheck
    rw [hfind]

/-- C7 witness: the empty board has no king, and both detectors report no
check on it. -/
theorem c7_missingKingNotInCheck_witness :
    ChessRules.isKingInCheck (BoardOf.empty ChessRules.Piece) ChessRules.PieceColor.white = false ∧
      ChessLogic.isInCheck (BoardOf.empty ChessLogic.Piece) ChessLogic.Player.dogs = false :=
  ⟨c7_missingKingNotInCheck.1 _ _ (fun _ _ _ hp => nomatch hp),
   c7_missingKingNotInCheck.2 _ _ (fun _ _ _ hp => nomatch hp)⟩

end CatVsDog

namespace CatVsDog

/-- C1 counterexample: the board-returning executor of chess-logic.ts does
not leave a pawn on the promotion square — it replaces the dogs pawn
moving from (1,0) to (0,0) by a queen itself, refuting the claim for this
executor. -/
theorem c1_autoPromotionCounterexample :
    ChessLogic.autoPromoBoard.get? 1 0 =
      some { type := PieceType.pawn, player := ChessLogic.Player.dogs, hasMoved := true } ∧
      (ChessLogic.makeMove ChessLogic.autoPromoBoard ⟨1, 0⟩ ⟨0, 0⟩).get? 0 0 =
        some { type := PieceType.queen, player := ChessLogic.Player.dogs, hasMoved := true } := by
  constructor <;> decide

/-- C1 (amended): the MoveResult-returning executor of chess-rules.ts only
flags a pawn reaching the farthest rank (isPromotion true with the
promotion square reported) and leaves a pawn on the destination square;
the replacement happens only through promotePawn, which swaps the piece
on the given square for the chosen type with hasMoved true.  The
board-returning executor of chess-logic.ts instead auto-promotes to a
queen, as the counterexample shows. -/
theorem c1_promotionFlagOnly :
    (∀ (b : ChessRules.Board) (fromPos toPos : Pos)
        (ep : Option ChessRules.EnPassantTarget) (piece : ChessRules.Piece),
      b.get? fromPos.row fromPos.col = some piece →
      piece.type = PieceType.pawn →
      (toPos.row = 0 ∨ toPos.row = 7) →
      0 ≤ toPos.col ∧ toPos.col < 8 →
      ¬(fromPos.row = toPos.row ∧ fromPos.col = toPos.col) →
      (ChessRules.makeMove b fromPos toPos ep).1.isPromotion = true ∧
        (ChessRules.makeMove b fromPos toPos ep).1.promotionPosition = some toPos ∧
        (ChessRules.makeMove b fromPos toPos ep).1.newBoard.get? toPos.row toPos.col =
          some { type := PieceType.pawn, color := piece.color, hasMoved := true }) ∧
    (∀ (b : ChessRules.Board) (position : Pos) (promotionType : PieceType)
        (piece : ChessRules.Piece),
      b.get? position.row position.col = some piece →
      (ChessRules.promotePawn b position promotionType).get? position.row position.col =
        some { type := promotionType, color := piece.color, hasMoved := true }) := by
  constructor
  · intro b fromPos toPos ep piece hfrom hpawn hlast hcol hne
    obtain ⟨pt, pcol, pmov⟩ := piece
    simp only at hpawn
    subst hpawn
    unfold ChessRules.makeMove
    rw [hfrom]
    simp only []
    rw [if_neg (by rintro ⟨h, -⟩; cases h)]
    have hrow : 0 ≤ toPos.row ∧ toPos.row < 8 := by rcases hlast with h | h <;> omega
    refine ⟨by simp [hlast], by simp [hlast], ?_⟩
    rw [BoardOf.get?_set_ne _ _
      (fun hcontra => hne ⟨hcontra.1.symm, hcontra.2.symm⟩)]
    rw [BoardOf.get?_set_eq _ _ ⟨hrow.1, hrow.2, hcol.1, hcol.2⟩]
    simp
  · intro b position promotionType piece hpos
    have hb := BoardOf.get?_eq_some_bounds hpos
    unfold ChessRules.promotePawn
    rw [hpos]
    exact BoardOf.get?_set_eq _ _ hb

/-- C1 witness: the white pawn moving from (1,0) to (0,0) is flagged and
stays a pawn; promotePawn applied to its square installs the chosen queen
with hasMoved true. -/
theorem c1_promotionFlagOnly_witness :
    (ChessRules.makeMove ChessRules.promoBoard ⟨1, 0⟩ ⟨0, 0⟩ none).1.isPromotion = true ∧
      (ChessRules.makeMove ChessRules.promoBoard ⟨1, 0⟩ ⟨0, 0⟩ none).1.promotionPosition =
        some ⟨0, 0⟩ ∧
      (ChessRules.makeMove ChessRules.promoBoard ⟨1, 0⟩ ⟨0, 0⟩ none).1.newBoard.get? 0 0 =
        some { type := PieceType.pawn, color := ChessRules.PieceColor.white, hasMoved := true } ∧
      (ChessRules.promotePawn ChessRules.promoBoard ⟨1, 0⟩ PieceType.queen).get? 1 0 =
        some { type := PieceType.queen, color := ChessRules.PieceColor.white, hasMoved := true } := by
  have h := c1_promotionFlagOnly.1 ChessRules.promoBoard ⟨1, 0⟩ ⟨0, 0⟩ none
    { type := PieceType.pawn, color := ChessRules.PieceColor.white, hasMoved := true }
    (by decide) rfl (Or.inl rfl) (by decide) (by decide)
  exact ⟨h.1, h.2.1, h.2.2,
    c1_promotionFlagOnly.2 ChessRules.promoBoard ⟨1, 0⟩ PieceType.queen
      { type := PieceType.pawn, color := ChessRules.PieceColor.white, hasMoved := true }
      (by decide)⟩

end CatVsDog

namespace CatVsDog

theorem minorNonKing_pair {p q : ChessRules.Piece}
    (h : (p.type = PieceType.king ∧ (q.type = PieceType.bishop ∨ q.type = PieceType.knight)) ∨
      (q.type = PieceType.king ∧ (p.type = PieceType.bishop ∨ p.type = PieceType.knight))) :
    ChessRules.minorNonKing [p, q] = true := by
  unfold ChessRules.minorNonKing
  rcases h with ⟨hk, hm⟩ | ⟨hk, hm⟩
  · rw [List.find?_cons_of_neg _ (by simp [hk]),
      List.find?_cons_of_pos _ (by rcases hm with h | h <;> simp [h])]
    simp [hm]
  · rw [List.find?_cons_of_pos _ (by rcases hm with h | h <;> simp [h])]
    simp [hm]

theorem minorNonKing_kingRook {p q : ChessRules.Piece}
    (h : (p.type = PieceType.king ∧ q.type = PieceType.rook) ∨
      (p.type = PieceType.rook ∧ q.type = PieceType.king)) :
    ChessRules.minorNonKing [p, q] = false := by
  unfold ChessRules.minorNonKing
  rcases h with ⟨hk, hr⟩ | ⟨hr, hk⟩
  · rw [List.find?_cons_of_neg _ (by simp [hk]),
      List.find?_cons_of_pos _ (by simp [hr])]
    simp [hr]
  · rw [List.find?_cons_of_pos _ (by simp [hr])]
    simp [hr]

theorem findBishop_pair {p q : ChessRules.Piece}
    (h : (p.type = PieceType.king ∧ q.type = PieceType.bishop) ∨
      (p.type = PieceType.bishop ∧ q.type = PieceType.king)) :
    (List.find? (fun x => decide (x.type = PieceType.bishop)) [p, q]).isSome = true := by
  rcases h with ⟨hk, hb⟩ | ⟨hb, hk⟩
  · rw [List.find?_cons_of_neg _ (by simp [hk]),
      List.find?_cons_of_pos _ (by simp [hb])]
    rfl
  · rw [List.find?_cons_of_pos _ (by simp [hb])]
    rfl

/-- C6: hasInsufficientMaterial reports true for king versus king, for
king plus one minor piece (bishop or knight) versus lone king on either
side, and for king plus bishop versus king plus bishop with both bishops
on squares of the same (row+col) mod 2 colour; it reports false for king
plus rook versus lone king. -/
theorem c6_insufficientMaterial :
    (∀ (b : ChessRules.Board) (wk bk : ChessRules.Piece),
      ChessRules.whitePieces b = [wk] → wk.type = PieceType.king →
      ChessRules.blackPieces b = [bk] → bk.type = PieceType.king →
      ChessRules.hasInsufficientMaterial b = true) ∧
    (∀ (b : ChessRules.Board) (wk p q : ChessRules.Piece),
      ChessRules.whitePieces b = [wk] → wk.type = PieceType.king →
      ChessRules.blackPieces b = [p, q] →
      ((p.type = PieceType.king ∧ (q.type = PieceType.bishop ∨ q.type = PieceType.knight)) ∨
        (q.type = PieceType.king ∧ (p.type = PieceType.bishop ∨ p.type = PieceType.knight))) →
      ChessRules.hasInsufficientMaterial b = true) ∧
    (∀ (b : ChessRules.Board) (bk p q : ChessRules.Piece),
      ChessRules.blackPieces b = [bk] → bk.type = PieceType.king →
      ChessRules.whitePieces b = [p, q] →
      ((p.type = PieceType.king ∧ (q.type = PieceType.bishop ∨ q.type = PieceType.knight)) ∨
        (q.type = PieceType.king ∧ (p.type = PieceType.bishop ∨ p.type = PieceType.knight))) →
      ChessRules.hasInsufficientMaterial b = true) ∧
    (∀ (b : ChessRules.Board) (p q p₂ q₂ : ChessRules.Piece) (wPos bPos : Pos),
      ChessRules.whitePieces b = [p, q] →
      ((p.type = PieceType.king ∧ q.type = PieceType.bishop) ∨
        (p.type = PieceType.bishop ∧ q.type = PieceType.king)) →
      ChessRules.blackPieces b = [p₂, q₂] →
      ((p₂.type = PieceType.king ∧ q₂.type = PieceType.bishop) ∨
        (p₂.type = PieceType.bishop ∧ q₂.type = PieceType.king)) →
      ChessRules.bishopPosOf b ChessRules.PieceColor.white = some wPos →
      ChessRules.bishopPosOf b ChessRules.PieceColor.black = some bPos →
      (wPos.row + wPos.col) % 2 = (bPos.row + bPos.col) % 2 →
      ChessRules.hasInsufficientMaterial b = true) ∧
    (∀ (b : ChessRules.Board) (p q bk : ChessRules.Piece),
      ChessRules.whitePieces b = [p, q] →
      ((p.type = PieceType.king ∧ q.type = PieceType.rook) ∨
        (p.type = PieceType.rook ∧ q.type = PieceType.king)) →
      ChessRules.blackPieces b = [bk] → bk.type = PieceType.king →
      ChessRules.hasInsufficientMaterial b = false) := by
  refine ⟨?_, ?_, ?_, ?_, ?_⟩
  · intro b wk bk hw hwt hb hbt
    simp [ChessRules.hasInsufficientMaterial, hw, hb]
  · intro b wk p q hw hwt hb hminor
    simp [ChessRules.hasInsufficientMaterial, hw, hb, minorNonKing_pair hminor]
  · intro b bk p q hb hbt hw hminor
    simp [ChessRules.hasInsufficientMaterial, hw, hb, minorNonKing_pair hminor]
  · intro b p q p₂ q₂ wPos bPos hw hwb hb hbb hwp hbp hcolor
    have hkb : ChessRules.kbkbSameColor b (ChessRules.whitePieces b)
        (ChessRules.blackPieces b) = true := by
      unfold ChessRules.kbkbSameColor
      rw [hw, hb]
      rw [if_pos ⟨findBishop_pair hwb, findBishop_pair hbb⟩]
      rw [hwp, hbp]
      simp [hcolor]
    simp [ChessRules.hasInsufficientMaterial, hw, hb] at hkb ⊢
    exact hkb
  · intro b p q bk hw hwr hb hbt
    simp [ChessRules.hasInsufficientMaterial, hw, hb, minorNonKing_kingRook hwr]

/-- C6 witness: the four fixture boards give true, true, true and false. -/
theorem c6_insufficientMaterial_witness :
    ChessRules.hasInsufficientMaterial ChessRules.kvkBoard = true ∧
      ChessRules.hasInsufficientMaterial ChessRules.knvkBoard = true ∧
      ChessRules.hasInsufficientMaterial ChessRules.kbkbBoard = true ∧
      ChessRules.hasInsufficientMaterial ChessRules.krvkBoard = false := by
  refine ⟨?_, ?_, ?_, ?_⟩
  · exact c6_insufficientMaterial.1 _
      ⟨PieceType.king, ChessRules.PieceColor.white, false⟩
      ⟨PieceType.king, ChessRules.PieceColor.black, false⟩
      (by decide) rfl (by decide) rfl
  · exact c6_insufficientMaterial.2.2.1 _
      ⟨PieceType.king, ChessRules.PieceColor.black, false⟩
      ⟨PieceType.king, ChessRules.PieceColor.white, false⟩
      ⟨PieceType.knight, ChessRules.PieceColor.white, false⟩
      (by decide) rfl (by decide) (Or.inl ⟨rfl, Or.inr rfl⟩)
  · exact c6_insufficientMaterial.2.2.2.1 _
      ⟨PieceType.king, ChessRules.PieceColor.white, false⟩
      ⟨PieceType.bishop, ChessRules.PieceColor.white, false⟩
      ⟨PieceType.bishop, ChessRules.PieceColor.black, false⟩
      ⟨PieceType.king, ChessRules.PieceColor.black, false⟩
      ⟨2, 1⟩ ⟨5, 4⟩
      (by decide) (Or.inl ⟨rfl, rfl⟩) (by decide) (Or.inr ⟨rfl, rfl⟩)
      (by decide) (by decide) (by decide)
  · exact c6_insufficientMaterial.2.2.2.2 _
      ⟨PieceType.king, ChessRules.PieceColor.white, false⟩
      ⟨PieceType.rook, ChessRules.PieceColor.white, false⟩
      ⟨PieceType.king, ChessRules.PieceColor.black, false⟩
      (by decide) (Or.inl ⟨rfl, rfl⟩) (by decide) rfl

end CatVsDog

namespace CatVsDog

theorem isInBounds_iff {r c : Int} :
    ChessLogic.isInBounds r c = true ↔ 0 ≤ r ∧ r < 8 ∧ 0 ≤ c ∧ c < 8 := by
  simp [ChessLogic.isInBounds]

theorem rayMoves_bounds {b : ChessLogic.Board} {piece : ChessLogic.Piece} {dRow dCol : Int} :
    ∀ (fuel : Nat) (row col : Int) (m : Pos),
      m ∈ ChessLogic.rayMoves b piece dRow dCol row col fuel →
      0 ≤ m.row ∧ m.row < 8 ∧ 0 ≤ m.col ∧ m.col < 8 := by
  intro fuel
  induction fuel with
  | zero =>
    intro row col m hm
    simp [ChessLogic.rayMoves] at hm
  | succ n ih =>
    intro row col m hm
    unfold ChessLogic.rayMoves at hm
    by_cases hib : ChessLogic.isInBounds row col = true
    · rw [if_pos hib] at hm
      have hbb := isInBounds_iff.mp hib
      cases hg : b.get? row col with
      | none =>
        simp only [hg] at hm
        rcases List.mem_cons.mp hm with rfl | hm2
        · exact hbb
        · exact ih _ _ _ hm2
      | some target =>
        simp only [hg] at hm
        split at hm
        · rcases List.mem_singleton.mp hm with rfl
          exact hbb
        · simp at hm
    · rw [if_neg hib] at hm
      simp at hm

theorem getPawnMoves_bounds {b : ChessLogic.Board} {piece : ChessLogic.Piece}
    {fromPos m : Pos} (hm : m ∈ ChessLogic.getPawnMoves b fromPos piece) :
    0 ≤ m.row ∧ m.row < 8 ∧ 0 ≤ m.col ∧ m.col < 8 := by
  unfold ChessLogic.getPawnMoves at hm
  rw [List.mem_append] at hm
  rcases hm with hf | hc
  · by_cases h1 : ChessLogic.isInBounds (fromPos.row + (if piece.player = ChessLogic.Player.dogs then -1 else 1)) fromPos.col = true ∧
        b.get? (fromPos.row + (if piece.player = ChessLogic.Player.dogs then -1 else 1)) fromPos.col = none
    · rw [if_pos h1] at hf
      have hone := isInBounds_iff.mp h1.1
      by_cases h2 : fromPos.row = (if piece.player = ChessLogic.Player.dogs then (6 : Int) else 1)
      · rw [if_pos h2] at hf
        by_cases h3 : b.get? (fromPos.row + 2 * (if piece.player = ChessLogic.Player.dogs then -1 else 1)) fromPos.col = none
        · rw [if_pos h3] at hf
          rw [List.mem_append] at hf
          rcases hf with hf | hf
          · rcases List.mem_singleton.mp hf with rfl
            exact hone
          · rcases List.mem_singleton.mp hf with rfl
            dsimp only
            by_cases hd : piece.player = ChessLogic.Player.dogs
            · rw [if_pos hd] at h2 ⊢
              exact ⟨by omega, by omega, hone.2.2⟩
            · rw [if_neg hd] at h2 ⊢
              exact ⟨by omega, by omega, hone.2.2⟩
        · rw [if_neg h3] at hf
          rcases List.mem_singleton.mp hf with rfl
          exact hone
      · rw [if_neg h2] at hf
        rcases List.mem_singleton.mp hf with rfl
        exact hone
    · rw [if_neg h1] at hf
      simp at hf
  · rw [List.mem_filter] at hc
    have hpred := hc.2
    rw [Bool.and_eq_true] at hpred
    exact isInBounds_iff.mp hpred.1

theorem getRookMoves_bounds {b : ChessLogic.Board} {piece : ChessLogic.Piece}
    {fromPos m : Pos} (hm : m ∈ ChessLogic.getRookMoves b fromPos piece) :
    0 ≤ m.row ∧ m.row < 8 ∧ 0 ≤ m.col ∧ m.col < 8 := by
  unfold ChessLogic.getRookMoves at hm
  rw [List.mem_flatMap] at hm
  obtain ⟨d, hd, hray⟩ := hm
  exact rayMoves_bounds _ _ _ _ hray

theorem getBishopMoves_bounds {b : ChessLogic.Board} {piece : ChessLogic.Piece}
    {fromPos m : Pos} (hm : m ∈ ChessLogic.getBishopMoves b fromPos piece) :
    0 ≤ m.row ∧ m.row < 8 ∧ 0 ≤ m.col ∧ m.col < 8 := by
  unfold ChessLogic.getBishopMoves at hm
  rw [List.mem_flatMap] at hm
  obtain ⟨d, hd, hray⟩ := hm
  exact rayMoves_bounds _ _ _ _ hray

theorem getQueenMoves_bounds {b : ChessLogic.Board} {piece : ChessLogic.Piece}
    {fromPos m : Pos} (hm : m ∈ ChessLogic.getQueenMoves b fromPos piece) :
    0 ≤ m.row ∧ m.row < 8 ∧ 0 ≤ m.col ∧ m.col < 8 := by
  unfold ChessLogic.getQueenMoves at hm
  rw [List.mem_append] at hm
  rcases hm with hm | hm
  · exact getRookMoves_bounds hm
  · exact getBishopMoves_bounds hm

theorem getKnightMoves_bounds {b : ChessLogic.Board} {piece : ChessLogic.Piece}
    {fromPos m : Pos} (hm : m ∈ ChessLogic.getKnightMoves b fromPos piece) :
    0 ≤ m.row ∧ m.row < 8 ∧ 0 ≤ m.col ∧ m.col < 8 := by
  unfold ChessLogic.getKnightMoves at hm
  rw [List.mem_filterMap] at hm
  obtain ⟨offset, hoff, heq⟩ := hm
  dsimp only at heq
  split at heq
  · rename_i hib
    split at heq
    · cases heq
      exact isInBounds_iff.mp hib
    · split at heq
      · cases heq
        exact isInBounds_iff.mp hib
      · exact absurd heq (by simp)
  · exact absurd heq (by simp)

theorem getKingMoves_bounds {b : ChessLogic.Board} {piece : ChessLogic.Piece}
    {fromPos m : Pos} (hm : m ∈ ChessLogic.getKingMoves b fromPos piece) :
    0 ≤ m.row ∧ m.row < 8 ∧ 0 ≤ m.col ∧ m.col < 8 := by
  unfold ChessLogic.getKingMoves at hm
  rw [List.mem_filterMap] at hm
  obtain ⟨offset, hoff, heq⟩ := hm
  dsimp only at heq
  split at heq
  · rename_i hib
    split at heq
    · cases heq
      exact isInBounds_iff.mp hib
    · split at heq
      · cases heq
        exact isInBounds_iff.mp hib
      · exact absurd heq (by simp)
  · exact absurd heq (by simp)

/-- C8: every destination produced by the pseudo-legal move generator of
chess-logic.ts lies on the 8x8 board (row and column in 0..7), for every
piece type including the two-square pawn advance. -/
theorem c8_movesInBounds :
    ∀ (b : ChessLogic.Board) (fromPos m : Pos),
      m ∈ ChessLogic.getValidMoves b fromPos →
      0 ≤ m.row ∧ m.row < 8 ∧ 0 ≤ m.col ∧ m.col < 8 := by
  intro b fromPos m hm
  unfold ChessLogic.getValidMoves at hm
  cases hg : b.get? fromPos.row fromPos.col with
  | none =>
    rw [hg] at hm
    simp at hm
  | some piece =>
    rw [hg] at hm
    obtain ⟨pt, pp, pmov⟩ := piece
    cases pt
    case pawn => exact getPawnMoves_bounds hm
    case rook => exact getRookMoves_bounds hm
    case knight => exact getKnightMoves_bounds hm
    case bishop => exact getBishopMoves_bounds hm
    case queen => exact getQueenMoves_bounds hm
    case king => exact getKingMoves_bounds hm

/-- C8 witness: the double pawn advance from the start square of the lone
dogs pawn is a generated move and lies on the board. -/
theorem c8_movesInBounds_witness :
    (0 : Int) ≤ (4 : Int) ∧ (4 : Int) < 8 ∧ (0 : Int) ≤ (0 : Int) ∧ (0 : Int) < 8 :=
  c8_movesInBounds ChessLogic.pawnOnlyBoard ⟨6, 0⟩ ⟨4, 0⟩ (by decide)

end CatVsDog

namespace CatVsDog

theorem selectMoveByDifficulty_hard_rng (sorted : List ChessBot.Move) (rng₁ rng₂ : Nat → Rat) :
    ChessBot.selectMoveByDifficulty sorted ChessBot.Difficulty.hard rng₁ =
      ChessBot.selectMoveByDifficulty sorted ChessBot.Difficulty.hard rng₂ := by
  cases sorted <;> rfl

/-- C9: at difficulty hard the bot move selection is deterministic — the
chess-bot.ts selector returns the same move for any two random streams,
and the chess-ai.ts search returns the same move for any two clock
oracles that never report the budget as exceeded (a budget large enough
for the whole search). -/
theorem c9_hardBotDeterministic :
    (∀ (b : ChessRules.Board) (botColor : ChessRules.PieceColor)
        (personality : ChessBot.Personality) (ep : Option ChessRules.EnPassantTarget)
        (rng₁ rng₂ : Nat → Rat),
      ChessBot.calculateBotMove b botColor ChessBot.Difficulty.hard personality ep rng₁ =
        ChessBot.calculateBotMove b botColor ChessBot.Difficulty.hard personality ep rng₂) ∧
    (∀ (board : ChessLogic.Board) (aiPlayer : ChessLogic.Player) (o₁ o₂ : Nat → Bool),
      (∀ n, o₁ n = false) → (∀ n, o₂ n = false) →
      ChessAI.findBestMove board aiPlayer o₁ = ChessAI.findBestMove board aiPlayer o₂) := by
  constructor
  · intro b botColor personality ep rng₁ rng₂
    unfold ChessBot.calculateBotMove
    simp only [show ∀ s, ChessBot.selectMoveByDifficulty s ChessBot.Difficulty.hard rng₁ =
        ChessBot.selectMoveByDifficulty s ChessBot.Difficulty.hard rng₂ from
      fun s => selectMoveByDifficulty_hard_rng s rng₁ rng₂]
  · intro board aiPlayer o₁ o₂ h₁ h₂
    have e₁ : o₁ = fun _ => false := funext h₁
    have e₂ : o₂ = fun _ => false := funext h₂
    rw [e₁, e₂]

/-- C9 witness: both selectors applied on the empty board agree across a
zero stream and a half stream, and across two never-firing clocks. -/
theorem c9_hardBotDeterministic_witness :
    ChessBot.calculateBotMove (BoardOf.empty ChessRules.Piece) ChessRules.PieceColor.white
        ChessBot.Difficulty.hard ChessBot.Personality.balanced none (fun _ => 0) =
      ChessBot.calculateBotMove (BoardOf.empty ChessRules.Piece) ChessRules.PieceColor.white
        ChessBot.Difficulty.hard ChessBot.Personality.balanced none (fun _ => 1 / 2) ∧
      ChessAI.findBestMove (BoardOf.empty ChessLogic.Piece) ChessLogic.Player.dogs
          (fun _ => false) =
        ChessAI.findBestMove (BoardOf.empty ChessLogic.Piece) ChessLogic.Player.dogs
          (fun _ => false) :=
  ⟨c9_hardBotDeterministic.1 _ _ _ _ _ _,
   c9_hardBotDeterministic.2 _ _ _ _ (fun _ => rfl) (fun _ => rfl)⟩

end CatVsDog

namespace CatVsDog

theorem all_pair_iff {f : Int → Bool} :
    ([1, 2] : List Int).all f = true ↔ ∀ step : Int, step = 1 ∨ step = 2 → f step = true := by
  rw [List.all_eq_true]
  constructor
  · intro h step hstep
    rcases hstep with rfl | rfl
    · exact h 1 (by simp)
    · exact h 2 (by simp)
  · intro h x hx
    have hx2 : x = 1 ∨ x = 2 := by simpa using hx
    exact h x hx2

theorem pathClear_iff {b : ChessRules.Board} {row a c : Int} :
    ((intRange (min a c + 1) (max a c - (min a c + 1)).toNat).all
        (fun col => (b.get? row col).isNone)) = true ↔
      ∀ col : Int, min a c < col → col < max a c → b.get? row col = none := by
  rw [intRange_all_iff]
  constructor
  · intro h col h1 h2
    have := h col (by omega) (by omega)
    rwa [Option.isNone_iff_eq_none] at this
  · intro h col h1 h2
    rw [Option.isNone_iff_eq_none]
    exact h col (by omega) (by omega)

theorem canCastle_iff (b : ChessRules.Board) (kingPos rookPos : Pos) :
    ChessRules.canCastle b kingPos rookPos = true ↔
      ∃ king rook : ChessRules.Piece,
        b.get? kingPos.row kingPos.col = some king ∧
        b.get? rookPos.row rookPos.col = some rook ∧
        king.type = PieceType.king ∧ rook.type = PieceType.rook ∧
        king.color = rook.color ∧
        king.hasMoved = false ∧ rook.hasMoved = false ∧
        kingPos.row = rookPos.row ∧
        (∀ col : Int, min kingPos.col rookPos.col < col → col < max kingPos.col rookPos.col →
          b.get? kingPos.row col = none) ∧
        ChessRules.isKingInCheck b king.color = false ∧
        (∀ step : Int, step = 1 ∨ step = 2 →
          ChessRules.isKingInCheck
            ((b.set kingPos.row kingPos.col none).set kingPos.row
              (kingPos.col + step * (if kingPos.col < rookPos.col then (1 : Int) else -1))
              (some king)) king.color = false) := by
  unfold ChessRules.canCastle
  cases hk : b.get? kingPos.row kingPos.col with
  | none =>
    cases hr : b.get? rookPos.row rookPos.col with
    | none =>
      constructor
      · intro h
        exact Bool.noConfusion h
      · rintro ⟨k, r, hk2, -⟩
        exact Option.noConfusion hk2
    | some rook =>
      constructor
      · intro h
        exact Bool.noConfusion h
      · rintro ⟨k, r, hk2, -⟩
        exact Option.noConfusion hk2
  | some king =>
    cases hr : b.get? rookPos.row rookPos.col with
    | none =>
      constructor
      · intro h
        exact Bool.noConfusion h
      · rintro ⟨k, r, -, hr2, -⟩
        exact Option.noConfusion hr2
    | some rook =>
      constructor
      · intro h
        dsimp only at h
        refine ⟨king, rook, rfl, rfl, ?_⟩
        by_cases h1 : king.type ≠ PieceType.king ∨ rook.type ≠ PieceType.rook
        · rw [if_pos h1] at h
          exact Bool.noConfusion h
        · rw [if_neg h1] at h
          push_neg at h1
          by_cases h2 : king.color ≠ rook.color
          · rw [if_pos h2] at h
            exact Bool.noConfusion h
          · rw [if_neg h2] at h
            push_neg at h2
            by_cases h3 : king.hasMoved = true ∨ rook.hasMoved = true
            · rw [if_pos h3] at h
              exact Bool.noConfusion h
            · rw [if_neg h3] at h
              push_neg at h3
              by_cases h4 : kingPos.row ≠ rookPos.row
              · rw [if_pos h4] at h
                exact Bool.noConfusion h
              · rw [if_neg h4] at h
                push_neg at h4
                by_cases h5 : ¬ ((intRange (min kingPos.col rookPos.col + 1)
                    (max kingPos.col rookPos.col - (min kingPos.col rookPos.col + 1)).toNat).all
                      (fun col => (b.get? kingPos.row col).isNone) = true)
                · rw [if_pos h5] at h
                  exact Bool.noConfusion h
                · rw [if_neg h5] at h
                  push_neg at h5
                  by_cases h6 : ChessRules.isKingInCheck b king.color = true
                  · rw [if_pos h6] at h
                    exact Bool.noConfusion h
                  · rw [if_neg h6] at h
                    refine ⟨h1.1, h1.2, h2, by simpa using h3.1, by simpa using h3.2, h4,
                      pathClear_iff.mp h5, by simpa using h6, ?_⟩
                    intro step hstep
                    have hall := all_pair_iff.mp h step hstep
                    simpa using hall
      · rintro ⟨k, r, hk2, hr2, hkt, hrt, hcol, hkm, hrm, hrow, hpath, hchk, hsteps⟩
        cases hk2
        cases hr2
        dsimp only
        rw [if_neg (by push_neg; exact ⟨hkt, hrt⟩)]
        rw [if_neg (by push_neg; exact hcol)]
        rw [if_neg (by simp [hkm, hrm])]
        rw [if_neg (by push_neg; exact hrow)]
        rw [if_neg (not_not_intro (pathClear_iff.mpr hpath))]
        rw [if_neg (by simp [hchk])]
        exact all_pair_iff.mpr (fun step hstep => by simpa using hsteps step hstep)

theorem makeMove_isCastling_iff (b : ChessRules.Board) (fromPos toPos : Pos)
    (ep : Option ChessRules.EnPassantTarget) :
    (ChessRules.makeMove b fromPos toPos ep).1.isCastling = true ↔
      ∃ king rook : ChessRules.Piece,
        b.get? fromPos.row fromPos.col = some king ∧ king.type = PieceType.king ∧
        b.get? toPos.row toPos.col = some rook ∧ rook.type = PieceType.rook ∧
        rook.color = king.color := by
  unfold ChessRules.makeMove
  cases hf : b.get? fromPos.row fromPos.col with
  | none =>
    constructor
    · intro h
      exact Bool.noConfusion h
    · rintro ⟨king, rook, hk, -⟩
      exact Option.noConfusion hk
  | some piece =>
    dsimp only
    by_cases hc : piece.type = PieceType.king ∧
        ChessRules.isSameColorRook piece (b.get? toPos.row toPos.col) = true
    · rw [if_pos hc]
      constructor
      · intro _h
        cases hcap : b.get? toPos.row toPos.col with
        | none =>
          simp only [ChessRules.isSameColorRook.eq_def, hcap] at hc
          exact Bool.noConfusion hc.2
        | some cp =>
          simp only [ChessRules.isSameColorRook.eq_def, hcap] at hc
          have hcp := of_decide_eq_true hc.2
          exact ⟨piece, cp, rfl, hc.1, rfl, hcp.1, hcp.2⟩
      · intro _h
        rfl
    · rw [if_neg hc]
      constructor
      · intro h
        exact Bool.noConfusion h
      · rintro ⟨king, rook, hk, hkt, hr, hrt, hrc⟩
        cases hk
        refine absurd ⟨hkt, ?_⟩ hc
        simp only [ChessRules.isSameColorRook.eq_def, hr]
        exact decide_eq_true ⟨hrt, hrc⟩

theorem isValidMove_castle_gate (b : ChessRules.Board) (fromPos toPos : Pos)
    (ep : Option ChessRules.EnPassantTarget) (king rook : ChessRules.Piece)
    (hk : b.get? fromPos.row fromPos.col = some king) (hkt : king.type = PieceType.king)
    (hr : b.get? toPos.row toPos.col = some rook) (hrt : rook.type = PieceType.rook)
    (hrc : rook.color = king.color) :
    ChessRules.isValidMove b fromPos toPos king.color ep = true ↔
      ChessRules.canCastle b fromPos toPos = true := by
  have hne : ¬(fromPos.row = toPos.row ∧ fromPos.col = toPos.col) := by
    rintro ⟨h1, h2⟩
    rw [h1, h2, hr] at hk
    injection hk with h3
    rw [← h3, hrt] at hkt
    exact PieceType.noConfusion hkt
  unfold ChessRules.isValidMove
  rw [if_neg hne, hk]
  dsimp only
  rw [if_neg (by simp), hr]
  dsimp only
  rw [if_pos (by simp [hrc])]
  rw [if_pos ⟨hkt, by simp [hrt]⟩]

theorem makeMove_castle_post (b : ChessRules.Board) (fromPos toPos : Pos)
    (ep : Option ChessRules.EnPassantTarget) (king rook : ChessRules.Piece)
    (hk : b.get? fromPos.row fromPos.col = some king) (hkt : king.type = PieceType.king)
    (hr : b.get? toPos.row toPos.col = some rook) (hrt : rook.type = PieceType.rook)
    (hrc : rook.color = king.color) :
    (ChessRules.makeMove b fromPos toPos ep).1.newBoard.get? fromPos.row
        (if fromPos.col < toPos.col then (6 : Int) else 2) =
      some { king with hasMoved := true } ∧
    (ChessRules.makeMove b fromPos toPos ep).1.newBoard.get? fromPos.row
        (if fromPos.col < toPos.col then (5 : Int) else 3) =
      some { type := PieceType.rook, color := king.color, hasMoved := true } ∧
    (ChessRules.makeMove b fromPos toPos ep).1.capturedPiece = none ∧
    (ChessRules.makeMove b fromPos toPos ep).2 = none ∧
    (ChessRules.makeMove b fromPos toPos ep).1.isCastling = true := by
  have hb := BoardOf.get?_eq_some_bounds hk
  unfold ChessRules.makeMove
  simp only [hk]
  rw [if_pos ⟨hkt, by
    simp only [ChessRules.isSameColorRook.eq_def, hr]
    exact decide_eq_true ⟨hrt, hrc⟩⟩]
  by_cases hks : fromPos.col < toPos.col
  · simp only [if_pos hks]
    refine ⟨?_, ?_, by trivial, by trivial, by trivial⟩
    · rw [BoardOf.get?_set_ne _ _ (by rintro ⟨-, h6⟩; exact absurd h6 (by decide))]
      rw [BoardOf.get?_set_eq _ _ ⟨hb.1, hb.2.1, by decide, by decide⟩]
    · rw [BoardOf.get?_set_eq _ _ ⟨hb.1, hb.2.1, by decide, by decide⟩]
  · simp only [if_neg hks]
    refine ⟨?_, ?_, by trivial, by trivial, by trivial⟩
    · rw [BoardOf.get?_set_ne _ _ (by rintro ⟨-, h6⟩; exact absurd h6 (by decide))]
      rw [BoardOf.get?_set_eq _ _ ⟨hb.1, hb.2.1, by decide, by decide⟩]
    · rw [BoardOf.get?_set_eq _ _ ⟨hb.1, hb.2.1, by decide, by decide⟩]

/-- C2: the executor castles exactly when the moved piece is a king whose
destination square holds an own rook; a castling request passes the
legality gate exactly when canCastle accepts it; canCastle accepts
exactly under the claimed preconditions (pieces unmoved, same back rank,
clear path, king not in check, neither crossed square attacked); and on
execution the king lands on file 6 or 2 and the rook on file 5 or 3 of
the same rank, both with hasMoved true, with the en-passant target
cleared and no capture reported. -/
theorem c2_castlingExecution :
    (∀ (b : ChessRules.Board) (fromPos toPos : Pos) (ep : Option ChessRules.EnPassantTarget),
      (ChessRules.makeMove b fromPos toPos ep).1.isCastling = true ↔
        ∃ king rook : ChessRules.Piece,
          b.get? fromPos.row fromPos.col = some king ∧ king.type = PieceType.king ∧
          b.get? toPos.row toPos.col = some rook ∧ rook.type = PieceType.rook ∧
          rook.color = king.color) ∧
    (∀ (b : ChessRules.Board) (fromPos toPos : Pos) (ep : Option ChessRules.EnPassantTarget)
        (king rook : ChessRules.Piece),
      b.get? fromPos.row fromPos.col = some king → king.type = PieceType.king →
      b.get? toPos.row toPos.col = some rook → rook.type = PieceType.rook →
      rook.color = king.color →
      (ChessRules.isValidMove b fromPos toPos king.color ep = true ↔
        ChessRules.canCastle b fromPos toPos = true)) ∧
    (∀ (b : ChessRules.Board) (kingPos rookPos : Pos),
      ChessRules.canCastle b kingPos rookPos = true ↔
        ∃ king rook : ChessRules.Piece,
          b.get? kingPos.row kingPos.col = some king ∧
          b.get? rookPos.row rookPos.col = some rook ∧
          king.type = PieceType.king ∧ rook.type = PieceType.rook ∧
          king.color = rook.color ∧
          king.hasMoved = false ∧ rook.hasMoved = false ∧
          kingPos.row = rookPos.row ∧
          (∀ col : Int, min kingPos.col rookPos.col < col →
            col < max kingPos.col rookPos.col → b.get? kingPos.row col = none) ∧
          ChessRules.isKingInCheck b king.color = false ∧
          (∀ step : Int, step = 1 ∨ step = 2 →
            ChessRules.isKingInCheck
              ((b.set kingPos.row kingPos.col none).set kingPos.row
                (kingPos.col + step * (if kingPos.col < rookPos.col then (1 : Int) else -1))
                (some king)) king.color = false)) ∧
    (∀ (b : ChessRules.Board) (fromPos toPos : Pos) (ep : Option ChessRules.EnPassantTarget)
        (king rook : ChessRules.Piece),
      b.get? fromPos.row fromPos.col = some king → king.type = PieceType.king →
      b.get? toPos.row toPos.col = some rook → rook.type = PieceType.rook →
      rook.color = king.color →
      (ChessRules.makeMove b fromPos toPos ep).1.newBoard.get? fromPos.row
          (if fromPos.col < toPos.col then (6 : Int) else 2) =
        some { king with hasMoved := true } ∧
      (ChessRules.makeMove b fromPos toPos ep).1.newBoard.get? fromPos.row
          (if fromPos.col < toPos.col then (5 : Int) else 3) =
        some { type := PieceType.rook, color := king.color, hasMoved := true } ∧
      (ChessRules.makeMove b fromPos toPos ep).1.capturedPiece = none ∧
      (ChessRules.makeMove b fromPos toPos ep).2 = none ∧
      (ChessRules.makeMove b fromPos toPos ep).1.isCastling = true) :=
  ⟨makeMove_isCastling_iff, isValidMove_castle_gate, canCastle_iff, makeMove_castle_post⟩

/-- C2 witness: white kingside castling on the fixture board — detection
fires, the gate agrees with canCastle, canCastle accepts from the spelled
out preconditions, and the post-state places king and rook on files 6 and
5 with the target cleared and no capture. -/
theorem c2_castlingExecution_witness :
    (ChessRules.makeMove ChessRules.castleBoard ⟨7, 4⟩ ⟨7, 7⟩ none).1.isCastling = true ∧
      (ChessRules.isValidMove ChessRules.castleBoard ⟨7, 4⟩ ⟨7, 7⟩
          ChessRules.PieceColor.white none = true ↔
        ChessRules.canCastle ChessRules.castleBoard ⟨7, 4⟩ ⟨7, 7⟩ = true) ∧
      ChessRules.canCastle ChessRules.castleBoard ⟨7, 4⟩ ⟨7, 7⟩ = true ∧
      (ChessRules.makeMove ChessRules.castleBoard ⟨7, 4⟩ ⟨7, 7⟩ none).1.newBoard.get? 7 6 =
        some { type := PieceType.king, color := ChessRules.PieceColor.white, hasMoved := true } ∧
      (ChessRules.makeMove ChessRules.castleBoard ⟨7, 4⟩ ⟨7, 7⟩ none).1.newBoard.get? 7 5 =
        some { type := PieceType.rook, color := ChessRules.PieceColor.white, hasMoved := true } ∧
      (ChessRules.makeMove ChessRules.castleBoard ⟨7, 4⟩ ⟨7, 7⟩ none).2 = none := by
  have hpost := c2_castlingExecution.2.2.2 ChessRules.castleBoard ⟨7, 4⟩ ⟨7, 7⟩ none
    ⟨PieceType.king, ChessRules.PieceColor.white, false⟩
    ⟨PieceType.rook, ChessRules.PieceColor.white, false⟩
    (by decide) rfl (by decide) rfl rfl
  refine ⟨hpost.2.2.2.2, ?_, ?_, ?_, ?_, hpost.2.2.2.1⟩
  · exact c2_castlingExecution.2.1 ChessRules.castleBoard ⟨7, 4⟩ ⟨7, 7⟩ none
      ⟨PieceType.king, ChessRules.PieceColor.white, false⟩
      ⟨PieceType.rook, ChessRules.PieceColor.white, false⟩
      (by decide) rfl (by decide) rfl rfl
  · refine (c2_castlingExecution.2.2.1 ChessRules.castleBoard ⟨7, 4⟩ ⟨7, 7⟩).mpr
      ⟨⟨PieceType.king, ChessRules.PieceColor.white, false⟩,
       ⟨PieceType.rook, ChessRules.PieceColor.white, false⟩,
       by decide, by decide, rfl, rfl, rfl, rfl, rfl, rfl, ?_, by decide, ?_⟩
    · intro col h1 h2
      have : col = 5 ∨ col = 6 := by
        simp only [show min (4 : Int) 7 = 4 from by decide,
          show max (4 : Int) 7 = 7 from by decide] at h1 h2
        omega
      rcases this with rfl | rfl <;> decide
    · intro step hstep
      rcases hstep with rfl | rfl <;> decide
  · exact hpost.1
  · exact hpost.2.1
end CatVsDog

namespace CatVsDog

theorem Heap.alloc_next {α : Type} (h : Heap α) (v : α) :
    ((h.alloc v).2).next = h.next + 1 := rfl

theorem Heap.alloc_data_lt {α : Type} (h : Heap α) (v : α) {r : Nat} (hr : r < h.next) :
    ((h.alloc v).2).data r = h.data r := by
  unfold Heap.alloc
  exact Function.update_noteq (show r ≠ h.next by omega) v h.data

theorem Heap.write_data_ne {α : Type} (h : Heap α) (r' : Nat) (v : α) {r : Nat}
    (hr : r ≠ r') : ((h.write r' v)).data r = h.data r := by
  unfold Heap.write
  exact Function.update_noteq hr v h.data

theorem cloneStep_next_mono (b : BoardOf Nat) (acc : BoardOf Nat × Heap ChessRules.Piece)
    (p : Pos) : acc.2.next ≤ ((ChessRules.cloneStep b acc p)).2.next := by
  unfold ChessRules.cloneStep
  cases b.get? p.row p.col with
  | none => exact le_rfl
  | some ref => exact Nat.le_succ _

theorem cloneStep_data_lt (b : BoardOf Nat) (acc : BoardOf Nat × Heap ChessRules.Piece)
    (p : Pos) {r : Nat} (hr : r < acc.2.next) :
    ((ChessRules.cloneStep b acc p)).2.data r = acc.2.data r := by
  unfold ChessRules.cloneStep
  cases b.get? p.row p.col with
  | none => rfl
  | some ref => exact Heap.alloc_data_lt _ _ hr

theorem cloneStep_refs (b : BoardOf Nat) (acc : BoardOf Nat × Heap ChessRules.Piece)
    (p : Pos) (n₀ : Nat) (hn : n₀ ≤ acc.2.next)
    (hrefs : ∀ (i j : Fin 8) (ref : Nat), acc.1 i j = some ref → n₀ ≤ ref) :
    ∀ (i j : Fin 8) (ref : Nat),
      (ChessRules.cloneStep b acc p).1 i j = some ref → n₀ ≤ ref := by
  intro i j ref h
  unfold ChessRules.cloneStep at h
  cases hg : b.get? p.row p.col with
  | none =>
    rw [hg] at h
    dsimp only at h
    rcases BoardOf.set_apply acc.1 p.row p.col none i j with hs | hs <;> rw [hs] at h
    · exact Option.noConfusion h
    · exact hrefs i j ref h
  | some ref0 =>
    rw [hg] at h
    dsimp only at h
    rcases BoardOf.set_apply acc.1 p.row p.col
        (some (acc.2.alloc (acc.2.data ref0)).1) i j with hs | hs <;>
      rw [hs] at h
    · injection h with h2
      have h3 : ref = acc.2.next := h2.symm
      omega
    · exact hrefs i j ref h

theorem cloneH_fold (b : BoardOf Nat) :
    ∀ (l : List Pos) (acc : BoardOf Nat × Heap ChessRules.Piece) (n₀ : Nat),
      n₀ ≤ acc.2.next →
      (∀ (i j : Fin 8) (ref : Nat), acc.1 i j = some ref → n₀ ≤ ref) →
      n₀ ≤ (List.foldl (ChessRules.cloneStep b) acc l).2.next ∧
        (∀ r < n₀, (List.foldl (ChessRules.cloneStep b) acc l).2.data r = acc.2.data r) ∧
        (∀ (i j : Fin 8) (ref : Nat),
          (List.foldl (ChessRules.cloneStep b) acc l).1 i j = some ref → n₀ ≤ ref) := by
  intro l
  induction l with
  | nil =>
    intro acc n₀ hn hrefs
    exact ⟨hn, fun r _ => rfl, hrefs⟩
  | cons p t ih =>
    intro acc n₀ hn hrefs
    simp only [List.foldl_cons]
    have hn2 : n₀ ≤ (ChessRules.cloneStep b acc p).2.next :=
      le_trans hn (cloneStep_next_mono b acc p)
    have hrefs2 := cloneStep_refs b acc p n₀ hn hrefs
    obtain ⟨h1, h2, h3⟩ := ih (ChessRules.cloneStep b acc p) n₀ hn2 hrefs2
    refine ⟨h1, fun r hr => ?_, h3⟩
    rw [h2 r hr, cloneStep_data_lt b acc p (lt_of_lt_of_le hr hn)]

theorem cloneH_spec (b : BoardOf Nat) (hp : Heap ChessRules.Piece) :
    hp.next ≤ (ChessRules.cloneH b hp).2.next ∧
      (∀ r < hp.next, (ChessRules.cloneH b hp).2.data r = hp.data r) ∧
      (∀ (i j : Fin 8) (ref : Nat),
        (ChessRules.cloneH b hp).1 i j = some ref → hp.next ≤ ref) := by
  unfold ChessRules.cloneH
  exact cloneH_fold b allSquares (BoardOf.empty Nat, hp) hp.next le_rfl
    (fun i j ref h => Option.noConfusion h)

/-- C4: both move executors leave the observable content of the input
board untouched — for every square, looking the input board up through
the heap after the call yields exactly the piece (type, side, hasMoved)
it held before.  The chess-logic executor copies the row arrays and only
allocates fresh piece objects; the chess-rules executor deep-clones the
board first, so its single in-place hasMoved mutation hits a
clone-allocated object. -/
theorem c4_inputBoardUnchanged :
    (∀ (b : BoardOf Nat) (hp : Heap ChessLogic.Piece) (fromPos toPos : Pos),
      refsBelow b hp →
      ∀ r c : Fin 8,
        obsAt b (ChessLogic.makeMoveH b fromPos toPos hp).2 r c = obsAt b hp r c) ∧
    (∀ (b : BoardOf Nat) (hp : Heap ChessRules.Piece) (fromPos toPos : Pos)
        (ep : Option ChessRules.EnPassantTarget),
      refsBelow b hp →
      ∀ r c : Fin 8,
        obsAt b ((ChessRules.makeMoveH b fromPos toPos hp ep).1).2 r c = obsAt b hp r c) := by
  constructor
  · intro b hp fromPos toPos hwf r c
    unfold obsAt
    cases hb : b r c with
    | none => rfl
    | some ref =>
      have href : ref < hp.next := hwf r c ref hb
      suffices h : (ChessLogic.makeMoveH b fromPos toPos hp).2.data ref = hp.data ref by
        simp [h]
      unfold ChessLogic.makeMoveH
      cases hg : b.get? fromPos.row fromPos.col with
      | none => rfl
      | some pref =>
        dsimp only
        split
        · rw [Heap.alloc_data_lt _ _ (by rw [Heap.alloc_next]; omega),
            Heap.alloc_data_lt _ _ href]
        · rw [Heap.alloc_data_lt _ _ href]
  · intro b hp fromPos toPos ep hwf r c
    unfold obsAt
    cases hb : b r c with
    | none => rfl
    | some ref =>
      have href : ref < hp.next := hwf r c ref hb
      obtain ⟨hc1, hc2, hc3⟩ := cloneH_spec b hp
      suffices h : ((ChessRules.makeMoveH b fromPos toPos hp ep).1).2.data ref = hp.data ref by
        simp [h]
      unfold ChessRules.makeMoveH
      cases hg : (ChessRules.cloneH b hp).1.get? fromPos.row fromPos.col with
      | none =>
        dsimp only
        rw [hg]
        exact hc2 ref href
      | some pref =>
        have hpref : hp.next ≤ pref := by
          have hbnd := BoardOf.get?_eq_some_bounds hg
          exact hc3 _ _ _ ((BoardOf.get?_eq_of_bounds _ hbnd).symm.trans hg)
        dsimp only
        rw [hg]
        dsimp only
        have hlt : ref < (ChessRules.cloneH b hp).2.next := lt_of_lt_of_le href hc1
        split
        · rw [Heap.alloc_data_lt _ _ (by rw [Heap.alloc_next]; omega),
            Heap.alloc_data_lt _ _ hlt]
          exact hc2 ref href
        · dsimp only
          split
          · rw [Heap.write_data_ne _ _ _ (by omega)]
            exact hc2 ref href
          · exact hc2 ref href

/-- C4 witness: a one-piece board whose square a1 holds the object at
reference 0; after either executor runs, the input board still observes
the same pawn object. -/
theorem c4_inputBoardUnchanged_witness :
    obsAt (fun i j => if i.val = 0 ∧ j.val = 0 then some 0 else none)
        (ChessLogic.makeMoveH (fun i j => if i.val = 0 ∧ j.val = 0 then some 0 else none)
          ⟨0, 0⟩ ⟨1, 0⟩
          ⟨fun _ => ⟨PieceType.pawn, ChessLogic.Player.dogs, false⟩, 1⟩).2 0 0 =
      obsAt (fun i j => if i.val = 0 ∧ j.val = 0 then some 0 else none)
        ⟨fun _ => ⟨PieceType.pawn, ChessLogic.Player.dogs, false⟩, 1⟩ 0 0 ∧
      obsAt (fun i j => if i.val = 0 ∧ j.val = 0 then some 0 else none)
          ((ChessRules.makeMoveH (fun i j => if i.val = 0 ∧ j.val = 0 then some 0 else none)
            ⟨0, 0⟩ ⟨1, 0⟩
            ⟨fun _ => ⟨PieceType.pawn, ChessRules.PieceColor.white, false⟩, 1⟩ none).1).2 0 0 =
        obsAt (fun i j => if i.val = 0 ∧ j.val = 0 then some 0 else none)
          ⟨fun _ => ⟨PieceType.pawn, ChessRules.PieceColor.white, false⟩, 1⟩ 0 0 := by
  have hwf1 : refsBelow (fun i j => if i.val = 0 ∧ j.val = 0 then some 0 else none)
      (⟨fun _ => ⟨PieceType.pawn, ChessLogic.Player.dogs, false⟩, 1⟩ : Heap ChessLogic.Piece) := by
    unfold refsBelow
    intro r c ref h
    dsimp only at h ⊢
    split at h
    · injection h with h2
      omega
    · exact Option.noConfusion h
  have hwf2 : refsBelow (fun i j => if i.val = 0 ∧ j.val = 0 then some 0 else none)
      (⟨fun _ => ⟨PieceType.pawn, ChessRules.PieceColor.white, false⟩, 1⟩ : Heap ChessRules.Piece) := by
    unfold refsBelow
    intro r c ref h
    dsimp only at h ⊢
    split at h
    · injection h with h2
      omega
    · exact Option.noConfusion h
  exact ⟨c4_inputBoardUnchanged.1 _ _ ⟨0, 0⟩ ⟨1, 0⟩ hwf1 0 0,
    c4_inputBoardUnchanged.2 _ _ ⟨0, 0⟩ ⟨1, 0⟩ none hwf2 0 0⟩

end CatVsDog

namespace CatVsDog

theorem typeChar_canon (t : PieceType) :
    ChessRules.typeChar (ChessRules.canonType t) = ChessRules.typeChar t := by
  cases t <;> rfl

theorem colorChar_inj {c₁ c₂ : ChessRules.PieceColor}
    (h : ChessRules.colorChar c₁ = ChessRules.colorChar c₂) : c₁ = c₂ := by
  cases c₁ <;> cases c₂ <;> first | rfl | exact absurd h (by decide)

theorem typeChar_canon_inj {t₁ t₂ : PieceType}
    (h : ChessRules.typeChar t₁ = ChessRules.typeChar t₂) :
    ChessRules.canonType t₁ = ChessRules.canonType t₂ := by
  cases t₁ <;> cases t₂ <;> first | rfl | exact absurd h (by decide)

theorem squareChars_class_congr {s₁ s₂ : Option ChessRules.Piece}
    (h : ChessRules.squareClass s₁ = ChessRules.squareClass s₂) :
    ChessRules.squareChars s₁ = ChessRules.squareChars s₂ := by
  cases s₁ with
  | none =>
    cases s₂ with
    | none => rfl
    | some p₂ => exact absurd h (by simp [ChessRules.squareClass])
  | some p₁ =>
    cases s₂ with
    | none => exact absurd h (by simp [ChessRules.squareClass])
    | some p₂ =>
      simp only [ChessRules.squareClass, Option.map] at h
      injection h with h2
      rw [Prod.mk.injEq] at h2
      unfold ChessRules.squareChars
      dsimp only
      rw [congrArg ChessRules.colorChar h2.1]
      rw [← typeChar_canon p₁.type, h2.2, typeChar_canon p₂.type]

theorem squareChars_cancel {s₁ s₂ : Option ChessRules.Piece} {r₁ r₂ : List Char}
    (h : ChessRules.squareChars s₁ ++ r₁ = ChessRules.squareChars s₂ ++ r₂) :
    ChessRules.squareClass s₁ = ChessRules.squareClass s₂ ∧ r₁ = r₂ := by
  cases s₁ with
  | none =>
    cases s₂ with
    | none =>
      unfold ChessRules.squareChars at h
      dsimp only at h
      simp only [List.cons_append, List.nil_append] at h
      injection h with h1 h2
      exact ⟨rfl, h2⟩
    | some p₂ =>
      unfold ChessRules.squareChars at h
      dsimp only at h
      simp only [List.cons_append, List.nil_append] at h
      injection h with h1 h2
      cases hc : p₂.color <;> rw [hc] at h1 <;> exact absurd h1 (by decide)
  | some p₁ =>
    cases s₂ with
    | none =>
      unfold ChessRules.squareChars at h
      dsimp only at h
      simp only [List.cons_append, List.nil_append] at h
      injection h with h1 h2
      cases hc : p₁.color <;> rw [hc] at h1 <;> exact absurd h1 (by decide)
    | some p₂ =>
      unfold ChessRules.squareChars at h
      dsimp only at h
      simp only [List.cons_append, List.nil_append] at h
      injection h with h1 h2
      injection h2 with h2 h3
      refine ⟨?_, h3⟩
      simp only [ChessRules.squareClass, Option.map]
      rw [colorChar_inj h1, typeChar_canon_inj h2]

theorem rowChars_cancel :
    ∀ (l₁ l₂ : List (Option ChessRules.Piece)) (r₁ r₂ : List Char),
      l₁.length = l₂.length →
      (l₁.map ChessRules.squareChars).flatten ++ r₁ =
        (l₂.map ChessRules.squareChars).flatten ++ r₂ →
      l₁.map ChessRules.squareClass = l₂.map ChessRules.squareClass ∧ r₁ = r₂ := by
  intro l₁
  induction l₁ with
  | nil =>
    intro l₂ r₁ r₂ hlen h
    cases l₂ with
    | nil => exact ⟨rfl, by simpa using h⟩
    | cons s₂ t₂ => exact absurd hlen (by simp)
  | cons s₁ t₁ ih =>
    intro l₂ r₁ r₂ hlen h
    cases l₂ with
    | nil => exact absurd hlen (by simp)
    | cons s₂ t₂ =>
      rw [List.map_cons, List.map_cons, List.flatten_cons, List.flatten_cons,
        List.append_assoc, List.append_assoc] at h
      obtain ⟨hclass, hrest⟩ := squareChars_cancel h
      obtain ⟨hmap, hr⟩ := ih t₂ r₁ r₂ (by simpa using hlen) hrest
      exact ⟨by rw [List.map_cons, List.map_cons, hclass, hmap], hr⟩

theorem joinRows_cancel :
    ∀ (L₁ L₂ : List (List (Option ChessRules.Piece))),
      L₁.length = L₂.length →
      (∀ x ∈ L₁, x.length = 8) → (∀ x ∈ L₂, x.length = 8) →
      ChessRules.joinRows (L₁.map (fun l => (l.map ChessRules.squareChars).flatten)) =
        ChessRules.joinRows (L₂.map (fun l => (l.map ChessRules.squareChars).flatten)) →
      L₁.map (fun l => l.map ChessRules.squareClass) =
        L₂.map (fun l => l.map ChessRules.squareClass) := by
  intro L₁
  induction L₁ with
  | nil =>
    intro L₂ hlen h1 h2 h
    cases L₂ with
    | nil => rfl
    | cons x₂ T₂ => exact absurd hlen (by simp)
  | cons x₁ T₁ ih =>
    intro L₂ hlen h1 h2 h
    cases L₂ with
    | nil => exact absurd hlen (by simp)
    | cons x₂ T₂ =>
      have hx₁ : x₁.length = 8 := h1 x₁ (by simp)
      have hx₂ : x₂.length = 8 := h2 x₂ (by simp)
      cases T₁ with
      | nil =>
        cases T₂ with
        | nil =>
          simp only [List.map_cons, List.map_nil, ChessRules.joinRows] at h
          have hcc := rowChars_cancel x₁ x₂ [] [] (by omega)
            (by rw [List.append_nil, List.append_nil]; exact h)
          simp only [List.map_cons, List.map_nil]
          rw [hcc.1]
        | cons y₂ U₂ => exact absurd hlen (by simp)
      | cons y₁ U₁ =>
        cases T₂ with
        | nil => exact absurd hlen (by simp)
        | cons y₂ U₂ =>
          simp only [List.map_cons, ChessRules.joinRows] at h
          obtain ⟨hclass, hrest⟩ := rowChars_cancel x₁ x₂ _ _ (by omega) h
          injection hrest with h3 h4
          have htail := ih (y₂ :: U₂) (by simpa using hlen)
            (fun x hx => h1 x (List.mem_cons_of_mem _ hx))
            (fun x hx => h2 x (List.mem_cons_of_mem _ hx))
            (by simpa only [List.map_cons, ChessRules.joinRows] using h4)
          simp only [List.map_cons] at htail ⊢
          rw [hclass, htail]

theorem rowChars_as_map (b : ChessRules.Board) :
    (List.finRange 8).map (fun r => ChessRules.rowChars b r) =
      ((List.finRange 8).map (fun r => (List.finRange 8).map (b r))).map
        (fun l => (l.map ChessRules.squareChars).flatten) := by
  rw [List.map_map]
  apply List.map_congr_left
  intro r hr
  dsimp only [Function.comp]
  unfold ChessRules.rowChars
  rw [List.map_map]
  rfl

/-- C10 counterexample: a lone white knight and a lone white king on a1
produce the same signature string although the boards differ in the type
occupying that square, refuting injectivity as claimed. -/
theorem c10_signatureCounterexample :
    ChessRules.boardToString ChessRules.knightBoard =
        ChessRules.boardToString ChessRules.kingBoard ∧
      ChessRules.knightBoard 0 0 ≠ ChessRules.kingBoard 0 0 := by
  constructor
  · decide
  · decide

/-- C10 (amended): boardToString identifies exactly the boards that agree
at every square on occupancy, side, and type up to the knight/king
identification (both encode as the letter K; the hasMoved flag is never
encoded).  In particular it is injective on knight-free boards, and
distinct same-side types on a square get distinct codes except knight
versus king. -/
theorem c10_signatureCharacterization :
    ∀ b₁ b₂ : ChessRules.Board,
      ChessRules.boardToString b₁ = ChessRules.boardToString b₂ ↔
        ∀ r c : Fin 8, ChessRules.squareClass (b₁ r c) = ChessRules.squareClass (b₂ r c) := by
  intro b₁ b₂
  constructor
  · intro h
    have hchars := congrArg String.data h
    simp only [ChessRules.boardToString] at hchars
    rw [rowChars_as_map b₁, rowChars_as_map b₂] at hchars
    have hrows := joinRows_cancel _ _ (by simp)
      (by intro x hx; rw [List.mem_map] at hx; obtain ⟨r, -, rfl⟩ := hx; simp)
      (by intro x hx; rw [List.mem_map] at hx; obtain ⟨r, -, rfl⟩ := hx; simp)
      hchars
    rw [List.map_map, List.map_map, List.map_inj_left] at hrows
    intro r c
    have hrow := hrows r (List.mem_finRange r)
    simp only [Function.comp] at hrow
    rw [List.map_map, List.map_map, List.map_inj_left] at hrow
    exact hrow c (List.mem_finRange c)
  · intro h
    unfold ChessRules.boardToString
    congr 1
    apply congrArg
    apply List.map_congr_left
    intro r hr
    unfold ChessRules.rowChars
    apply congrArg
    apply List.map_congr_left
    intro c hc
    exact squareChars_class_congr (h r c)

/-- C10 witness: the characterization applied to the knight board against
the king board, whose square classes agree, yields equal signatures. -/
theorem c10_signatureCharacterization_witness :
    ChessRules.boardToString ChessRules.knightBoard =
      ChessRules.boardToString ChessRules.kingBoard :=
  (c10_signatureCharacterization ChessRules.knightBoard ChessRules.kingBoard).mpr
    (by decide)

end CatVsDog
